import Mathlib

/-!
# Verification of the Column_Store_Project engine

A shallow embedding of the column-oriented storage engine (`ColumnStore`,
`src/unnamed/part_000`, lines 375-783) and the SQL query layer
(`QueryEngine`, `src/js/queryEngine.js`), together with proofs settling the
specification claims about them.

Modelling conventions (documented once here):
* JavaScript numbers are modelled by `JsNum`: exact rationals for finite
  doubles (every number this program computes with is integer-valued or a
  small decimal, where IEEE doubles are exact), plus `nan`, `inf`, `negInf`.
  The distinction between `+0` and `-0` is not modelled.
* `null` and `undefined` are identified as `JsVal.null`: the engine treats
  them alike at insertion (`value === null || value === undefined`), and
  rows materialised by `scan` are total on the selected columns.
* Wall-clock data (`performance.now()` durations, `Date` fields) is
  abstracted away from states and result records; no claim depends on it.
* JS `Map`s are modelled by association lists in insertion order, with
  `set` updating in place and adding new keys at the end, exactly the
  iteration-order semantics the code relies on.
* String ordering uses Lean's lexicographic `String` order (JS compares
  UTF-16 code units; these agree on the ASCII data this program handles).
-/

set_option maxRecDepth 10000

deriving instance DecidableEq for Except

namespace CStore

/-- A JavaScript number: a finite double (modelled exactly by a rational),
`NaN`, `Infinity` or `-Infinity`. -/
inductive JsNum where
  | fin (q : ℚ)
  | nan
  | inf
  | negInf
deriving DecidableEq, Repr

/-- Is this number `NaN`? -/
def JsNum.isNan : JsNum → Bool
  | .nan => true
  | _ => false

/-- JS `<` on numbers (`NaN` compares false with everything). -/
def JsNum.lt : JsNum → JsNum → Bool
  | .fin a, .fin b => decide (a < b)
  | .fin _, .inf => true
  | .negInf, .fin _ => true
  | .negInf, .inf => true
  | _, _ => false

/-- JS `<=` on numbers: false when either side is `NaN`, else the negation
of the reversed `<`. -/
def JsNum.le (a b : JsNum) : Bool :=
  !a.isNan && !b.isNan && !(JsNum.lt b a)

/-- JS `+` on numbers. -/
def JsNum.add : JsNum → JsNum → JsNum
  | .nan, _ => .nan
  | _, .nan => .nan
  | .fin a, .fin b => .fin (a + b)
  | .inf, .negInf => .nan
  | .negInf, .inf => .nan
  | .inf, _ => .inf
  | _, .inf => .inf
  | .negInf, _ => .negInf
  | _, .negInf => .negInf

/-- JS `/` on numbers (division by zero gives signed infinity, `0/0` gives
`NaN`; the `-0` divisor case is not modelled). -/
def JsNum.div : JsNum → JsNum → JsNum
  | .nan, _ => .nan
  | _, .nan => .nan
  | .fin a, .fin b =>
      if b = 0 then (if a = 0 then .nan else if a > 0 then .inf else .negInf)
      else .fin (a / b)
  | .fin _, .inf => .fin 0
  | .fin _, .negInf => .fin 0
  | .inf, .fin b => if b < 0 then .negInf else .inf
  | .negInf, .fin b => if b < 0 then .inf else .negInf
  | .inf, _ => .nan
  | .negInf, _ => .nan

/-- Binary `Math.min`: `NaN` is absorbing. -/
def JsNum.min2 (a b : JsNum) : JsNum :=
  if a.isNan || b.isNan then .nan else if JsNum.lt a b then a else b

/-- Binary `Math.max`: `NaN` is absorbing. -/
def JsNum.max2 (a b : JsNum) : JsNum :=
  if a.isNan || b.isNan then .nan else if JsNum.lt a b then b else a

/-- A JavaScript value as this program stores and compares them. -/
inductive JsVal where
  | num (n : JsNum)
  | str (s : String)
  | bool (b : Bool)
  | null
deriving DecidableEq, Repr

/-- The ASCII whitespace characters matched by JS `\s` (unicode spaces are
not modelled; the parser normalises input to single ASCII spaces anyway). -/
def isWsChar (c : Char) : Bool :=
  c = ' ' || c = '\t' || c = '\n' || c = '\r' || c = '\x0b' || c = '\x0c'

def isDigitChar (c : Char) : Bool := c.isDigit

def isHexChar (c : Char) : Bool :=
  c.isDigit || ('a' ≤ c && c ≤ 'f') || ('A' ≤ c && c ≤ 'F')

def hexDigitVal (c : Char) : ℕ :=
  if c.isDigit then c.toNat - '0'.toNat
  else if 'a' ≤ c && c ≤ 'f' then c.toNat - 'a'.toNat + 10
  else c.toNat - 'A'.toNat + 10

def digitsVal (l : List Char) : ℕ :=
  l.foldl (fun a c => a * 10 + (c.toNat - '0'.toNat)) 0

def trimList (l : List Char) : List Char :=
  ((l.dropWhile isWsChar).reverse.dropWhile isWsChar).reverse

/-- Parse the longest valid decimal-literal prefix
`digits [. digits] [e [+|-] digits]` (at least one digit in the integer or
fraction part); returns its value and the unconsumed rest. -/
def parseDecimalCore (l : List Char) : Option (ℚ × List Char) :=
  let ip := l.takeWhile isDigitChar
  let r1 := l.dropWhile isDigitChar
  let (fp, r2) :=
    match r1 with
    | '.' :: t => (t.takeWhile isDigitChar, t.dropWhile isDigitChar)
    | _ => ([], r1)
  let hasFracDot := match r1 with | '.' :: _ => true | _ => false
  if ip.isEmpty ∧ fp.isEmpty then none
  else
    let base : ℚ := (digitsVal ip : ℚ) + (digitsVal fp : ℚ) / ((10 : ℚ) ^ fp.length)
    let r2' := if hasFracDot then r2 else r1
    let expParse : Option (ℤ × List Char) :=
      match r2' with
      | 'e' :: t | 'E' :: t =>
        let (sgn, t1) :=
          match t with
          | '+' :: u => ((1 : ℤ), u)
          | '-' :: u => ((-1 : ℤ), u)
          | u => ((1 : ℤ), u)
        let ds := t1.takeWhile isDigitChar
        if ds.isEmpty then none
        else some (sgn * (digitsVal ds : ℤ), t1.dropWhile isDigitChar)
      | _ => none
    match expParse with
    | some (e, rest) => some (base * (10 : ℚ) ^ e, rest)
    | none => some (base, r2')

/-- Split an optional leading sign. -/
def signSplit (l : List Char) : ℚ × List Char :=
  match l with
  | '+' :: t => (1, t)
  | '-' :: t => (-1, t)
  | t => (1, t)

/-- JS `Number(string)`: whole-string conversion; `""` is `0`, hex literals
are accepted, anything else malformed is `NaN`. -/
def jsStringToNumber (s : String) : JsNum :=
  let l := trimList s.toList
  if l.isEmpty then .fin 0
  else
    match l with
    | '0' :: 'x' :: t | '0' :: 'X' :: t =>
        if !t.isEmpty ∧ t.all isHexChar then
          .fin ((t.foldl (fun a c => a * 16 + hexDigitVal c) 0 : ℕ) : ℚ)
        else .nan
    | _ =>
        let (sgn, l1) := signSplit l
        if l1 = "Infinity".toList then (if sgn = 1 then .inf else .negInf)
        else
          match parseDecimalCore l1 with
          | some (q, []) => .fin (sgn * q)
          | _ => .nan

/-- JS `parseFloat(string)`: value of the longest numeric-literal prefix
(after leading whitespace), `NaN` when there is none. -/
def jsParseFloat (s : String) : JsNum :=
  let l := s.toList.dropWhile isWsChar
  let (sgn, l1) := signSplit l
  if "Infinity".toList.isPrefixOf l1 then (if sgn = 1 then .inf else .negInf)
  else
    match parseDecimalCore l1 with
    | some (q, _) => .fin (sgn * q)
    | none => .nan

/-- JS `ToNumber` on the values this program handles. -/
def JsVal.toNumber : JsVal → JsNum
  | .num n => n
  | .str s => jsStringToNumber s
  | .bool b => .fin (if b then 1 else 0)
  | .null => .fin 0

/-- Decimal rendering of a finite JS number (exact when the denominator
divides a power of ten, which holds for every value this program prints;
the fraction fallback is unreachable for program values). -/
def decimalString (q : ℚ) : String :=
  let sgn := if q < 0 then "-" else ""
  let a := |q|
  match (List.range 21).find? (fun k => (a * (10 : ℚ) ^ k).den = 1) with
  | some k =>
      let m := (a * (10 : ℚ) ^ k).num.toNat
      let ip := m / 10 ^ k
      let fr := m % 10 ^ k
      let fracDigits := (toString fr).toList
      let padded := List.replicate (k - fracDigits.length) '0' ++ fracDigits
      let trimmed := (padded.reverse.dropWhile (· = '0')).reverse
      if trimmed.isEmpty then sgn ++ toString ip
      else sgn ++ toString ip ++ "." ++ String.mk trimmed
  | none => sgn ++ toString a.num ++ "/" ++ toString a.den

/-- JS `String(number)`. -/
def JsNum.toDisplay : JsNum → String
  | .nan => "NaN"
  | .inf => "Infinity"
  | .negInf => "-Infinity"
  | .fin q => if q.den = 1 then toString q.num else decimalString q

/-- JS `String(value)` on the values this program handles. -/
def jsToString : JsVal → String
  | .num n => n.toDisplay
  | .str s => s
  | .bool b => if b then "true" else "false"
  | .null => "null"

/-- Lexicographic comparison of character sequences by code point (JS
compares strings by UTF-16 code units; identical on this program's data). -/
def charListLt : List Char → List Char → Bool
  | [], [] => false
  | [], _ :: _ => true
  | _ :: _, [] => false
  | a :: as, b :: bs =>
      if a.toNat < b.toNat then true
      else if b.toNat < a.toNat then false
      else charListLt as bs

/-- JS `<` on two strings. -/
def jsStrLt (a b : String) : Bool := charListLt a.toList b.toList

/-- JS `<` (abstract relational comparison): lexicographic when both sides
are strings, numeric via `ToNumber` otherwise. -/
def jsLt (a b : JsVal) : Bool :=
  match a, b with
  | .str x, .str y => jsStrLt x y
  | _, _ => JsNum.lt a.toNumber b.toNumber

/-- JS `>`. -/
def jsGt (a b : JsVal) : Bool := jsLt b a

/-- JS `<=`. -/
def jsLe (a b : JsVal) : Bool :=
  match a, b with
  | .str x, .str y => !jsStrLt y x
  | _, _ => JsNum.le a.toNumber b.toNumber

/-- JS `>=`. -/
def jsGe (a b : JsVal) : Bool := jsLe b a

/-- JS `===` (strict equality): `NaN` is not equal to itself; otherwise
structural equality on this value domain. -/
def jsStrictEq (a b : JsVal) : Bool :=
  match a, b with
  | .num .nan, _ => false
  | _, .num .nan => false
  | x, y => decide (x = y)

/-- JS `String.prototype.toUpperCase` (ASCII, which covers every function
name this program dispatches on). -/
def jsToUpper (s : String) : String := ⟨s.data.map Char.toUpper⟩

/-- JS `+`: string concatenation when either side is a string, otherwise
numeric addition via `ToNumber`. -/
def jsAdd (a b : JsVal) : JsVal :=
  match a, b with
  | .str x, _ => .str (x ++ jsToString b)
  | _, .str y => .str (jsToString a ++ y)
  | _, _ => .num (JsNum.add a.toNumber b.toNumber)

/-! ## Association-list maps (JS `Map` objects, insertion order) -/

/-- A row object: an ordered list of named fields. A key that is absent
reads as `JsVal.null` (modelling JS `undefined`, which this engine treats
like `null`). -/
abbrev Row := List (String × JsVal)

/-- Property read `row[k]`. -/
def rowGet (r : Row) (k : String) : JsVal :=
  match r with
  | [] => .null
  | (k', v) :: t => if k' = k then v else rowGet t k

/-- `Map.prototype.get`. -/
def mapGet {β : Type} (m : List (String × β)) (k : String) : Option β :=
  match m with
  | [] => none
  | (k', v) :: t => if k' = k then some v else mapGet t k

/-- `Map.prototype.set`: updates an existing key in place, appends a new
key at the end (preserving iteration order). -/
def mapSet {β : Type} (m : List (String × β)) (k : String) (v : β) :
    List (String × β) :=
  match m with
  | [] => [(k, v)]
  | (k', v') :: t => if k' = k then (k, v) :: t else (k', v') :: mapSet t k v

/-- Update the value stored at `k` (models mutating the object obtained
from `Map.get(k)` in place); a no-op when `k` is absent. -/
def mapUpdate {β : Type} (m : List (String × β)) (k : String) (f : β → β) :
    List (String × β) :=
  match m with
  | [] => []
  | (k', v') :: t => if k' = k then (k', f v') :: t else (k', v') :: mapUpdate t k f

/-- The string-column dictionary: a JS `Map` from value to integer code
(key equality is SameValueZero, which on this value domain is structural
equality). -/
abbrev Dict := List (JsVal × ℕ)

/-- `dictionary.has(value)`. -/
def dictHas (d : Dict) (k : JsVal) : Bool :=
  match d with
  | [] => false
  | (k', _) :: t => if k' = k then true else dictHas t k

/-- `dictionary.get(value)`. -/
def dictGet (d : Dict) (k : JsVal) : Option ℕ :=
  match d with
  | [] => none
  | (k', v) :: t => if k' = k then some v else dictGet t k

/-! ## ColumnStore: data model (`part_000` lines 375-419) -/

/-- One schema entry `{name, type}`. -/
structure SchemaCol where
  name : String
  type : String
deriving DecidableEq, Repr

/-- Column statistics (`stats`): `min`/`max` start as `null`;
`distinctCount` is initialised to 0 and never updated by the code. -/
structure ColStats where
  statMin : JsVal
  statMax : JsVal
  distinctCount : ℕ
  nullCount : ℕ
deriving DecidableEq, Repr

/-- One column of a table. `data` holds raw values, or integer dictionary
codes for string columns; `nullBitmap` holds the 0/1 flags the code pushes. -/
structure Column where
  name : String
  type : String
  data : List JsVal
  nullBitmap : List ℕ
  compression : String
  dictionary : Option Dict
  stats : ColStats
deriving DecidableEq, Repr

/-- Table metadata (wall-clock fields abstracted away).
`compressionFactor` models `metadata.compressionRatio`. -/
structure TableMeta where
  compressionFactor : JsNum
  totalSize : ℚ
deriving DecidableEq, Repr

/-- A table: schema, columns keyed by name, and a row count. -/
structure Table where
  name : String
  schema : List SchemaCol
  columns : List (String × Column)
  rowCount : ℕ
  metadata : TableMeta
deriving DecidableEq, Repr

/-- The store: its registry of tables by name. -/
structure Store where
  tables : List (String × Table)
deriving DecidableEq, Repr

/-- `selectCompression` (lines 424-437). -/
def selectCompression (t : String) : String :=
  if t = "string" then "dictionary"
  else if t = "integer" then "rle"
  else if t = "float" then "delta"
  else if t = "boolean" then "bitmap"
  else "none"

/-- The fresh column built for one schema entry in `createTable`. -/
def initColumn (sc : SchemaCol) : Column :=
  { name := sc.name
    type := sc.type
    data := []
    nullBitmap := []
    compression := selectCompression sc.type
    dictionary := if sc.type = "string" then some [] else none
    stats := { statMin := .null, statMax := .null, distinctCount := 0, nullCount := 0 } }

/-- `createTable` (lines 385-419): builds a table with one empty column per
schema entry, registers it (silently replacing an existing name) and
returns it. -/
def createTable (s : Store) (tableName : String) (schema : List SchemaCol) :
    Store × Table :=
  let table : Table :=
    { name := tableName
      schema := schema
      columns := schema.foldl (fun cols sc => mapSet cols sc.name (initColumn sc)) []
      rowCount := 0
      metadata := { compressionFactor := .fin 0, totalSize := 0 } }
  (⟨mapSet s.tables tableName table⟩, table)

/-! ## ColumnStore: insert (`part_000` lines 442-497) -/

/-- `updateColumnStats` (lines 490-497): JS comparisons against a `min`
that starts as `null` (strict-equality null test, then JS `<`/`>`). -/
def updateColumnStats (c : Column) (v : JsVal) : Column :=
  let c1 :=
    if c.stats.statMin = .null ∨ jsLt v c.stats.statMin then
      { c with stats := { c.stats with statMin := v } }
    else c
  if c1.stats.statMax = .null ∨ jsGt v c1.stats.statMax then
    { c1 with stats := { c1.stats with statMax := v } }
  else c1

/-- The per-(row, column) body of `insert` (lines 451-472): appends the
presence flag, appends the value (allocating a dictionary code first on
string columns) and updates statistics. `colType` is the schema entry's
declared type, `v` the row's value for this column (`null` covering both
`null` and an absent field). -/
def appendValue (colType : String) (c : Column) (v : JsVal) : Column :=
  if v = .null then
    { c with
      nullBitmap := c.nullBitmap ++ [1]
      data := c.data ++ [.null]
      stats := { c.stats with nullCount := c.stats.nullCount + 1 } }
  else
    let c1 := { c with nullBitmap := c.nullBitmap ++ [0] }
    let c2 :=
      if colType = "string" ∧ c1.dictionary.isSome then
        let d := c1.dictionary.getD []
        let d1 := if dictHas d v then d else d ++ [(v, d.length)]
        -- `dictionary.get(value)` cannot miss after the conditional `set`
        let code := (dictGet d1 v).getD 0
        { c1 with dictionary := some d1, data := c1.data ++ [.num (.fin (code : ℚ))] }
      else
        { c1 with data := c1.data ++ [v] }
    updateColumnStats c2 v

/-- One iteration of the outer `rows.forEach` of `insert` (lines 448-475):
processes every schema column for one row, then increments `rowCount`.
(The JS code would crash if a schema name were missing from the column
map, which `createTable` makes impossible; the model makes that case a
no-op.) -/
def insertRow (t : Table) (r : Row) : Table :=
  { t with
    columns := t.schema.foldl
      (fun cols sc => mapUpdate cols sc.name (fun c => appendValue sc.type c (rowGet r sc.name)))
      t.columns
    rowCount := t.rowCount + 1 }

/-- `calculateCompression` (lines 502-529): the size heuristic; stores the
two-decimal ratio into the table's metadata and returns it. `toFixed(2)`
string formatting is modelled as rounding to two decimals. -/
def calculateCompression (t : Table) : JsNum × Table :=
  let sizes : ℚ × ℚ := t.columns.foldl
    (fun acc p =>
      let c := p.2
      let u := acc.1 + (c.data.length : ℚ) * 8
      let comp := acc.2 +
        (match c.dictionary with
         | some d => (d.length : ℚ) * 20 + (c.data.length : ℚ) * 2
         | none => (c.data.length : ℚ) * 4)
      (u, comp + (⌈(c.nullBitmap.length : ℚ) / 8⌉ : ℤ)))
    (0, 0)
  let cr : JsNum :=
    match JsNum.div (.fin sizes.1) (.fin sizes.2) with
    | .fin q => .fin ((⌊q * 100 + 1 / 2⌋ : ℤ) / (100 : ℚ))
    | n => n
  (cr, { t with metadata := { compressionFactor := cr, totalSize := sizes.2 } })

/-- The result record of `insert` (duration abstracted). -/
structure InsertResult where
  rowsInserted : ℕ
  compressionFactor : JsNum
deriving DecidableEq, Repr

/-- `insert` (lines 442-485): all rows are appended column-wise, then the
compression heuristic updates the metadata. Fails (before any mutation)
when the table is unregistered. -/
def insert (s : Store) (tableName : String) (rows : List Row) :
    Except String InsertResult × Store :=
  match mapGet s.tables tableName with
  | none => (.error s!"Table {tableName} not found", s)
  | some t =>
      let t1 := rows.foldl insertRow t
      let (cr, t2) := calculateCompression t1
      (.ok { rowsInserted := rows.length, compressionFactor := cr },
       ⟨mapSet s.tables tableName t2⟩)

/-! ## ColumnStore: scan and predicates (`part_000` lines 534-637) -/

/-- A parsed WHERE predicate `{column, operator, value}`. -/
structure Pred where
  column : String
  operator : String
  value : JsVal
deriving DecidableEq, Repr

/-- The dictionary-decoding step shared by `scan` (lines 557-566) and
`applyPredicate` (lines 597-605): reverse-lookup of the first dictionary
entry whose code is strictly equal to the stored value; the value is kept
unchanged when the column has no dictionary, is `null`, or no entry
matches. -/
def decodeCell (c : Column) (v : JsVal) : JsVal :=
  match c.dictionary with
  | none => v
  | some d =>
      if v = .null then v
      else
        match d.find? (fun p => jsStrictEq (.num (.fin (p.2 : ℚ))) v) with
        | some p => p.1
        | none => v

/-- The operator switch of `applyPredicate` (lines 613-635); an
unrecognised operator matches everything. -/
def evalOp (op : String) (colValue v : JsVal) : Bool :=
  if op = "=" then jsStrictEq colValue v
  else if op = ">" then jsGt colValue v
  else if op = "<" then jsLt colValue v
  else if op = ">=" then jsGe colValue v
  else if op = "<=" then jsLe colValue v
  else if op = "!=" then !jsStrictEq colValue v
  else true

/-- The per-index body of `applyPredicate` (lines 594-636): decode the
stored value, reject null rows, then apply the operator. Out-of-range
reads model JS `undefined` as `null`/`0`. -/
def predMatchAt (c : Column) (p : Pred) (i : ℕ) : Bool :=
  let colValue := decodeCell c ((c.data.get? i).getD .null)
  if (c.nullBitmap.get? i).getD 0 ≠ 0 then false
  else evalOp p.operator colValue p.value

/-- `applyPredicate` (lines 590-637): the match bitmap over all row
indices. Every index is assigned in every branch of the switch, so the
all-true initial bitmap built by `scan` does not influence the result. -/
def applyPredicate (t : Table) (c : Column) (p : Pred) : List Bool :=
  (List.range t.rowCount).map (predMatchAt c p)

/-- One materialised cell of a `scan` result row (lines 554-568):
dictionary-decode, then substitute `null` where the presence flag is set. -/
def materializeCell (c : Column) (i : ℕ) : JsVal :=
  let v := decodeCell c ((c.data.get? i).getD .null)
  if (c.nullBitmap.get? i).getD 0 ≠ 0 then .null else v

/-- Builds one output row of `scan` for row index `i`; errors on a
selected column that does not exist (where the JS code would throw a
`TypeError`). -/
def materializeRow (t : Table) (cols : List String) (i : ℕ) :
    Except String Row :=
  cols.mapM (fun cn =>
    match mapGet t.columns cn with
    | none => .error "TypeError: undefined column"
    | some c => .ok (cn, materializeCell c i))

/-- Result metadata: `scan` and `aggregate` return different shapes
(durations abstracted). -/
inductive ResultMeta where
  | scanMeta (rowsScanned rowsReturned columnsScanned : ℕ)
  | aggMeta (groupCount : ℕ)
deriving DecidableEq, Repr

/-- A `{data, metadata}` result object. -/
structure OpResult where
  data : List Row
  metadata : ResultMeta
deriving DecidableEq, Repr

/-- `scan` (lines 534-585): builds the match bitmap (all-true without a
predicate), materialises one row object per matching index over the
selected columns (all columns when `columns` is `null`), and reports scan
metadata. Fails with `TableNotFound` on an unregistered name; reading a
missing predicate column is the modelled JS `TypeError`. The store is
returned unchanged: the body only reads it. -/
def scan (s : Store) (tableName : String) (columns : Option (List String))
    (predicate : Option Pred) : Except String OpResult × Store :=
  match mapGet s.tables tableName with
  | none => (.error s!"Table {tableName} not found", s)
  | some t =>
      let selectedColumns := columns.getD (t.columns.map (·.1))
      let bitmapE : Except String (List Bool) :=
        match predicate with
        | none => .ok (List.replicate t.rowCount true)
        | some p =>
            match mapGet t.columns p.column with
            | none => .error "TypeError: undefined column"
            | some pc => .ok (applyPredicate t pc p)
      match bitmapE with
      | .error e => (.error e, s)
      | .ok bitmap =>
          match ((List.range t.rowCount).filter (fun i => bitmap.getD i true)).mapM
              (materializeRow t selectedColumns) with
          | .error e => (.error e, s)
          | .ok rows =>
              (.ok { data := rows
                     metadata := .scanMeta t.rowCount rows.length selectedColumns.length }, s)

/-! ## ColumnStore: aggregation (`part_000` lines 642-722) -/

/-- One aggregate specification `{function, column, alias}`. -/
structure Agg where
  function : String
  column : String
  aliasName : Option String
deriving DecidableEq, Repr

/-- `computeAggregate` (lines 705-722): filters out null values, then
dispatches on the upper-cased function name. `SUM` folds JS `+` from `0`;
`AVG` divides by the value count (`NaN` for an empty group); `MIN`/`MAX`
are `Math.min`/`Math.max` over the values (coercing via `ToNumber`,
`±Infinity` for an empty group). Unknown functions throw. -/
def computeAggregate (rows : List Row) (column func : String) :
    Except String JsVal :=
  let values := (rows.map (fun r => rowGet r column)).filter (fun v => v ≠ .null)
  let f := jsToUpper func
  if f = "COUNT" then
    .ok (.num (.fin ((if column = "*" then rows.length else values.length : ℕ) : ℚ)))
  else if f = "SUM" then
    .ok (values.foldl jsAdd (.num (.fin 0)))
  else if f = "AVG" then
    .ok (.num (JsNum.div (values.foldl jsAdd (.num (.fin 0))).toNumber
      (.fin ((values.length : ℕ) : ℚ))))
  else if f = "MIN" then
    .ok (.num (values.foldl (fun a v => JsNum.min2 a v.toNumber) .inf))
  else if f = "MAX" then
    .ok (.num (values.foldl (fun a v => JsNum.max2 a v.toNumber) .negInf))
  else .error s!"Unknown aggregate function: {func}"

/-- Insert one row into the `groups` map of `aggregate` (lines 658-664):
append to the group of key `k` if present (SameValueZero key equality),
else add a new group at the end. -/
def groupInsert (gs : List (JsVal × List Row)) (k : JsVal) (r : Row) :
    List (JsVal × List Row) :=
  match gs with
  | [] => [(k, [r])]
  | (k', rs) :: t => if k' = k then (k', rs ++ [r]) :: t else (k', rs) :: groupInsert t k r

/-- The grouping pass of `aggregate`: partition scanned rows by the value
of the GROUP BY column, groups kept in first-occurrence order. -/
def groupRows (data : List Row) (g : String) : List (JsVal × List Row) :=
  data.foldl (fun gs r => groupInsert gs (rowGet r g) r) []

/-- The result rows for one group: the group key under the GROUP BY name,
then one field per aggregate (keyed by `alias || function`). -/
def groupResultRow (g : String) (aggregates : List Agg) (kg : JsVal × List Row) :
    Except String Row := do
  let aggVals ← aggregates.mapM (fun agg => do
    let v ← computeAggregate kg.2 agg.column agg.function
    pure (agg.aliasName.getD agg.function, v))
  pure ((g, kg.1) :: aggVals)

/-- `aggregate` (lines 642-700): scans with the predicate (no column
projection), groups when `groupBy` is given (single implicit group
otherwise) and computes every aggregate per group. The store passes
through `scan` and is returned unchanged. -/
def aggregate (s : Store) (tableName : String) (aggregates : List Agg)
    (groupBy : Option String) (predicate : Option Pred) :
    Except String OpResult × Store :=
  match mapGet s.tables tableName with
  | none => (.error s!"Table {tableName} not found", s)
  | some _ =>
      match scan s tableName none predicate with
      | (.error e, s1) => (.error e, s1)
      | (.ok scanResult, s1) =>
          let data := scanResult.data
          let resultsE : Except String (List Row) :=
            match groupBy with
            | some g => (groupRows data g).mapM (groupResultRow g aggregates)
            | none => do
                let aggVals ← aggregates.mapM (fun agg => do
                  let v ← computeAggregate data agg.column agg.function
                  pure (agg.aliasName.getD agg.function, v))
                pure [aggVals]
          match resultsE with
          | .error e => (.error e, s1)
          | .ok results =>
              (.ok { data := results
                     metadata := .aggMeta (match groupBy with
                       | some _ => results.length
                       | none => 1) }, s1)

/-! ## QueryEngine: the regular expressions of `parse`/`parseWhere`

Each regex of `queryEngine.js` is modelled by a hand-specialised matcher
with ECMAScript semantics: leftmost match position, ordered alternation,
greedy `\s+`/`\s*`/`[\w]+` (no backtracking into them is ever needed for
these patterns because the adjacent characters are disjoint), and lazy
`(.*?)`. All matchers work on the whitespace-normalised text `parse`
produces. -/

/-- JS `\w`. -/
def wordChar (c : Char) : Bool := c.isAlpha || c.isDigit || c = '_'

/-- Case-insensitive literal match: consumes `pat` from the front of `l`
and returns the rest. -/
def matchCI (pat : List Char) (l : List Char) : Option (List Char) :=
  match pat, l with
  | [], rest => some rest
  | _, [] => none
  | p :: ps, c :: cs => if c.toUpper = p.toUpper then matchCI ps cs else none

/-- Greedy `\s+`. -/
def spaces1 (l : List Char) : Option (List Char) :=
  match l with
  | c :: t => if isWsChar c then some (t.dropWhile isWsChar) else none
  | [] => none

/-- Leftmost-match search: try the pattern at every position, first hit
wins (including the end-of-string position). -/
def scanLeft {α : Type} (f : List Char → Option α) : List Char → Option α
  | [] => f []
  | c :: cs =>
      match f (c :: cs) with
      | some r => some r
      | none => scanLeft f cs

/-- The lazy `(.*?)\s+FROM` tail of `/SELECT\s+(.*?)\s+FROM/i`: grow the
capture one character at a time until `\s+FROM` matches. -/
def lazyToFrom (acc : List Char) : List Char → Option (List Char)
  | [] => none
  | c :: cs =>
      if (match spaces1 (c :: cs) with
          | some r => (matchCI "FROM".toList r).isSome
          | none => false) then some acc.reverse
      else lazyToFrom (c :: acc) cs

/-- `/SELECT\s+(.*?)\s+FROM/i` at one position; returns capture 1. -/
def selectFromAt (l : List Char) : Option (List Char) := do
  let r1 ← matchCI "SELECT".toList l
  let r2 ← spaces1 r1
  lazyToFrom [] r2

/-- `/FROM\s+(\w+)/i` at one position; returns capture 1. -/
def fromAt (l : List Char) : Option (List Char) := do
  let r1 ← matchCI "FROM".toList l
  let r2 ← spaces1 r1
  let w := r2.takeWhile wordChar
  if w.isEmpty then failure else pure w

/-- Does `(?:\s+GROUP BY|\s+ORDER BY|\s+LIMIT|$)` match at this point? -/
def whereTermHere (l : List Char) : Bool :=
  l.isEmpty ||
    (match spaces1 l with
     | none => false
     | some r =>
         (matchCI "GROUP BY".toList r).isSome ||
         (matchCI "ORDER BY".toList r).isSome ||
         (matchCI "LIMIT".toList r).isSome)

/-- The lazy capture of `/WHERE\s+(.*?)(?:\s+GROUP BY|\s+ORDER BY|\s+LIMIT|$)/i`. -/
def lazyWhere (acc : List Char) : List Char → Option (List Char)
  | [] => some acc.reverse
  | c :: cs =>
      if whereTermHere (c :: cs) then some acc.reverse
      else lazyWhere (c :: acc) cs

/-- The WHERE regex at one position; returns capture 1. -/
def whereAt (l : List Char) : Option (List Char) := do
  let r1 ← matchCI "WHERE".toList l
  let r2 ← spaces1 r1
  lazyWhere [] r2

/-- `/GROUP BY\s+([\w]+)/i` at one position. -/
def groupByAt (l : List Char) : Option (List Char) := do
  let r1 ← matchCI "GROUP BY".toList l
  let r2 ← spaces1 r1
  let w := r2.takeWhile wordChar
  if w.isEmpty then failure else pure w

/-- `/ORDER BY\s+([\w]+)(?:\s+(ASC|DESC))?/i` at one position; the
direction is returned upper-cased (as `parse` stores it). -/
def orderByAt (l : List Char) : Option (List Char × Option String) := do
  let r1 ← matchCI "ORDER BY".toList l
  let r2 ← spaces1 r1
  let w := r2.takeWhile wordChar
  if w.isEmpty then failure
  else
    let r3 := r2.dropWhile wordChar
    let dir : Option String :=
      match (do
        let r4 ← spaces1 r3
        match matchCI "ASC".toList r4 with
        | some _ => some "ASC"
        | none => (matchCI "DESC".toList r4).map (fun _ => "DESC")) with
      | some d => some d
      | none => none
    pure (w, dir)

/-- `/LIMIT\s+(\d+)/i` at one position; `parseInt` of the digits. -/
def limitAt (l : List Char) : Option ℕ := do
  let r1 ← matchCI "LIMIT".toList l
  let r2 ← spaces1 r1
  let ds := r2.takeWhile isDigitChar
  if ds.isEmpty then failure else pure (digitsVal ds)

/-- The ordered alternation `(COUNT|SUM|AVG|MIN|MAX)` of the aggregate
regex (the function names are prefix-disjoint, so at most one matches at
a given position); the name is returned upper-cased as `parse` stores it. -/
def aggFnAt (l : List Char) : Option (String × List Char) :=
  match matchCI "COUNT".toList l with
  | some r => some ("COUNT", r)
  | none =>
    match matchCI "SUM".toList l with
    | some r => some ("SUM", r)
    | none =>
      match matchCI "AVG".toList l with
      | some r => some ("AVG", r)
      | none =>
        match matchCI "MIN".toList l with
        | some r => some ("MIN", r)
        | none =>
          match matchCI "MAX".toList l with
          | some r => some ("MAX", r)
          | none => none

/-- `/(COUNT|SUM|AVG|MIN|MAX)\s*\(\s*(\*|[\w]+)\s*\)(?:\s+AS\s+(\w+))?/i`
at one position (line 94 of `queryEngine.js`). -/
def aggAt (l : List Char) : Option Agg := do
  let (fn, r1) ← aggFnAt l
  let r2 := r1.dropWhile isWsChar
  let r3 ← match r2 with | '(' :: t => some t | _ => none
  let r4 := r3.dropWhile isWsChar
  let (argS, r5) ←
    match r4 with
    | '*' :: t => some ("*", t)
    | _ =>
        let w := r4.takeWhile wordChar
        if w.isEmpty then none else some (String.mk w, r4.dropWhile wordChar)
  let r6 := r5.dropWhile isWsChar
  let r7 ← match r6 with | ')' :: t => some t | _ => none
  let al : Option String :=
    (do
      let a1 ← spaces1 r7
      let a2 ← matchCI "AS".toList a1
      let a3 ← spaces1 a2
      let w := a3.takeWhile wordChar
      if w.isEmpty then failure else pure (String.mk w))
  pure { function := fn, column := argS, aliasName := al }

/-! ## QueryEngine: parseWhere (`queryEngine.js` lines 148-168) -/

/-- The ordered operator alternation `(=|>|<|>=|<=|!=)` of the WHERE
regex. Because alternation is first-match, `>=` and `<=` can never be
produced: `>` and `<` match first. -/
def opAt (l : List Char) : Option (String × List Char) :=
  match l with
  | '=' :: t => some ("=", t)
  | '>' :: t => some (">", t)
  | '<' :: t => some ("<", t)
  | '!' :: '=' :: t => some ("!=", t)
  | _ => none

/-- Content before the first occurrence of `q`, when one exists. -/
def upToChar (q : Char) : List Char → Option (List Char)
  | [] => none
  | c :: t => if c = q then some [] else (upToChar q t).map (fun u => c :: u)

/-- The `(['"]?)(.*?)\3` tail of the WHERE regex: the optional quote group
tries a quote first; with a quote the lazy capture runs to the first
closing quote; without a quote (or with an unclosed one, after
backtracking the optional group to empty) the lazy capture against an
empty backreference matches the empty string. -/
def quoteVal (l : List Char) : String :=
  match l with
  | q :: t =>
      if q = '\'' ∨ q = '"' then
        match upToChar q t with
        | some content => String.mk content
        | none => ""
      else ""
  | [] => ""

/-- `/([\w]+)\s*(=|>|<|>=|<=|!=)\s*(['"]?)(.*?)\3/` at one position:
word characters (greedy), `\s*`, the ordered operator alternation, `\s*`,
then the optionally quoted value. Once an operator matches, the rest of
the pattern always succeeds, so no backtracking across it occurs. -/
def whereRegexAt (l : List Char) : Option (String × String × String) :=
  let w := l.takeWhile wordChar
  if w.isEmpty then none
  else
    let r1 := (l.dropWhile wordChar).dropWhile isWsChar
    match opAt r1 with
    | none => none
    | some (op, r2) =>
        let r3 := r2.dropWhile isWsChar
        some (String.mk w, op, quoteVal r3)

/-- `parseWhere` (lines 148-168): run the regex, then coerce the raw
captured value: when `!isNaN(value)` (JS `Number` conversion does not give
`NaN`) the predicate carries `parseFloat(value)`, else the string itself. -/
def parseWhere (whereClause : String) : Except String Pred :=
  match scanLeft whereRegexAt whereClause.toList with
  | none => .error "Invalid WHERE clause"
  | some (col, op, vs) =>
      let value : JsVal :=
        if !(jsStringToNumber vs).isNan then .num (jsParseFloat vs) else .str vs
      .ok { column := col, operator := op, value := value }

/-! ## QueryEngine: parse (`queryEngine.js` lines 60-143) -/

/-- ORDER BY clause `{column, direction}`. -/
structure OrderBy where
  column : String
  direction : String
deriving DecidableEq, Repr

/-- The parsed query object. The JS field `where` is called `wherePred`
here (`where` is reserved in Lean). -/
structure Query where
  type : String
  table : String
  columns : List String
  wherePred : Option Pred
  groupBy : Option String
  orderBy : Option OrderBy
  limit : Option ℕ
  aggregates : List Agg
deriving DecidableEq, Repr

/-- Collapse whitespace runs to single spaces (the flag tracks whether the
previous character was whitespace). -/
def collapseWs (prevWs : Bool) : List Char → List Char
  | [] => []
  | c :: t =>
      if isWsChar c then
        (if prevWs then collapseWs true t else ' ' :: collapseWs true t)
      else c :: collapseWs false t

/-- `sql.trim().replace(/\s+/g, ' ')` (line 61). -/
def normalizeSql (s : String) : String :=
  String.mk (trimList (collapseWs false s.toList))

/-- `sql.toUpperCase().startsWith('SELECT')` (line 75). -/
def upperStartsWithSelect (l : List Char) : Bool :=
  (l.take 6).map Char.toUpper = "SELECT".toList

/-- Split on `','` (JS `String.prototype.split`). -/
def splitComma (l : List Char) : List (List Char) :=
  match l with
  | [] => [[]]
  | c :: t =>
      let rest := splitComma t
      if c = ',' then [] :: rest
      else
        match rest with
        | h :: r => (c :: h) :: r
        | [] => [[c]]

/-- The SELECT-list pass (lines 87-105): each comma-separated item is
tested against the aggregate regex; matches become aggregate specs,
non-matches plain projected column names. -/
def parseSelectList (selectClause : List Char) : List String × List Agg :=
  if selectClause = ['*'] then (["*"], [])
  else
    (splitComma selectClause).foldl
      (fun acc item =>
        let col := trimList item
        match scanLeft aggAt col with
        | some agg => (acc.1, acc.2 ++ [agg])
        | none => (acc.1 ++ [String.mk col], acc.2))
      ([], [])

/-- `parse` (lines 60-143): normalise, require a SELECT statement, extract
the clauses with the fixed regexes. Error messages are the thrown JS
messages: `UnsupportedStatement` = "Only SELECT queries are supported",
`InvalidSelectSyntax` = "Invalid SELECT syntax", `MissingFromClause` =
"FROM clause is required", `InvalidWhereClause` = "Invalid WHERE clause". -/
def parseSql (sql : String) : Except String Query :=
  let l := (normalizeSql sql).toList
  if !upperStartsWithSelect l then .error "Only SELECT queries are supported"
  else
    match scanLeft selectFromAt l with
    | none => .error "Invalid SELECT syntax"
    | some cap =>
        let (cols, aggs) := parseSelectList (trimList cap)
        match scanLeft fromAt l with
        | none => .error "FROM clause is required"
        | some tw =>
            let whereE : Except String (Option Pred) :=
              match scanLeft whereAt l with
              | none => .ok none
              | some wc =>
                  match parseWhere (String.mk (trimList wc)) with
                  | .error e => .error e
                  | .ok p => .ok (some p)
            match whereE with
            | .error e => .error e
            | .ok wp =>
                .ok { type := "SELECT"
                      table := String.mk tw
                      columns := cols
                      wherePred := wp
                      groupBy := (scanLeft groupByAt l).map String.mk
                      orderBy := (scanLeft orderByAt l).map (fun p =>
                        { column := String.mk p.1, direction := p.2.getD "ASC" })
                      limit := scanLeft limitAt l
                      aggregates := aggs }

/-! ## QueryEngine: planner (`queryEngine.js` lines 173-233) -/

/-- One execution-plan step (the heterogeneous JS `target` values are
rendered as strings). -/
structure PlanStep where
  step : ℕ
  operation : String
  target : String
  description : String
  cost : String
deriving DecidableEq, Repr

/-- `createExecutionPlan` (lines 173-233): Scan, then Filter / Aggregate /
Sort / Limit steps only when the corresponding query field is present
(`if (query.limit)` is JS-truthy, so a parsed `LIMIT 0` adds no step),
then Projection. The Filter step is hard-coded as step 2; the others use
the running length. -/
def createExecutionPlan (q : Query) : List PlanStep :=
  let steps : List PlanStep :=
    [{ step := 1, operation := "Table Scan", target := q.table
       description := "Scan table " ++ q.table, cost := "O(n)" }]
  let steps :=
    match q.wherePred with
    | some w => steps ++
        [{ step := 2, operation := "Filter"
           target := w.column ++ " " ++ w.operator ++ " " ++ jsToString w.value
           description := "Apply predicate pushdown", cost := "O(n)" }]
    | none => steps
  let steps :=
    if q.aggregates.isEmpty then steps
    else steps ++
      [{ step := steps.length + 1, operation := "Aggregate"
         target := String.intercalate ", "
           (q.aggregates.map (fun a => a.function ++ "(" ++ a.column ++ ")"))
         description := match q.groupBy with
           | some g => "Group by " ++ g
           | none => "Compute aggregates"
         cost := match q.groupBy with
           | some _ => "O(n log n)"
           | none => "O(n)" }]
  let steps :=
    match q.orderBy with
    | some ob => steps ++
        [{ step := steps.length + 1, operation := "Sort"
           target := ob.column ++ " " ++ ob.direction
           description := "Sort results", cost := "O(n log n)" }]
    | none => steps
  let steps :=
    match q.limit with
    | some k =>
        if k ≠ 0 then steps ++
          [{ step := steps.length + 1, operation := "Limit", target := toString k
             description := s!"Return first {k} rows", cost := "O(1)" }]
        else steps
    | none => steps
  steps ++
    [{ step := steps.length + 1, operation := "Projection"
       target := String.intercalate ", " q.columns
       description := "Project selected columns", cost := "O(m)" }]

/-! ## QueryEngine: executor (`queryEngine.js` lines 238-285) -/

/-- The comparator passed to `Array.prototype.sort` by `applyOrderBy`
(lines 277-284). -/
def cmpRows (ob : OrderBy) (a b : Row) : ℤ :=
  let aVal := rowGet a ob.column
  let bVal := rowGet b ob.column
  if jsLt aVal bVal then (if ob.direction = "ASC" then -1 else 1)
  else if jsGt aVal bVal then (if ob.direction = "ASC" then 1 else -1)
  else 0

/-- Stable insertion of one element: it goes in front of the first element
it does not compare after (so in front of comparator-equal elements,
preserving their original relative order). -/
def sortInsert (c : Row → Row → ℤ) (x : Row) : List Row → List Row
  | [] => [x]
  | y :: ys => if c x y ≤ 0 then x :: y :: ys else y :: sortInsert c x ys

/-- A stable comparator sort: the model of `Array.prototype.sort`, which
ECMAScript requires to be stable and sorted whenever the comparator is
consistent. -/
def jsSort (c : Row → Row → ℤ) : List Row → List Row
  | [] => []
  | x :: xs => sortInsert c x (jsSort c xs)

/-- `applyOrderBy` (lines 276-285): `[...data].sort(comparator)`. -/
def applyOrderBy (data : List Row) (ob : OrderBy) : List Row :=
  jsSort (cmpRows ob) data

/-- The scan-or-aggregate dispatch of `executeQuery` (lines 239-253). -/
def runQueryCore (s : Store) (q : Query) : Except String OpResult :=
  if !q.aggregates.isEmpty then
    (aggregate s q.table q.aggregates q.groupBy q.wherePred).1
  else
    let cols := if q.columns.headD "" = "*" then none else some q.columns
    (scan s q.table cols q.wherePred).1

/-- `executeQuery` (lines 238-271): run the query, then ORDER BY, then
LIMIT. `if (query.limit)` is JS-truthy: a limit of `0` applies no
truncation. -/
def executeQuery (s : Store) (q : Query) : Except String OpResult :=
  match runQueryCore s q with
  | .error e => .error e
  | .ok result =>
      let data := result.data
      let data :=
        match q.orderBy with
        | some ob => applyOrderBy data ob
        | none => data
      let data :=
        match q.limit with
        | some k => if k ≠ 0 then data.take k else data
        | none => data
      .ok { data := data, metadata := result.metadata }

/-! ## QueryEngine: session, history (`queryEngine.js` lines 6-55, 311-320) -/

/-- One record of `queryHistory` (timestamp and duration abstracted; the
success branch stores the plan and the row count, the failure branch the
error message). -/
structure ExecRecord where
  sql : String
  rowsAffected : Option ℕ
  success : Bool
  error : Option String
  executionPlan : Option (List PlanStep)
deriving DecidableEq, Repr

/-- The engine's mutable state: the wrapped store and the history list. -/
structure QueryEngineState where
  store : Store
  queryHistory : List ExecRecord
deriving DecidableEq, Repr

/-- The `{...result, execution}` object returned by a successful
`execute`. -/
structure ExecResult where
  data : List Row
  metadata : ResultMeta
  execution : ExecRecord
deriving DecidableEq, Repr

/-- The `try` block of `execute` (lines 18-21): parse, plan, run. -/
def executeOutcome (st : QueryEngineState) (sql : String) :
    Except String (List PlanStep × OpResult) := do
  let q ← parseSql sql
  let plan := createExecutionPlan q
  let result ← executeQuery st.store q
  pure (plan, result)

/-- `execute` (lines 15-55): parse, plan, run; on success and on failure
alike exactly one record is appended to the history; failures are
re-raised to the caller. -/
def execute (st : QueryEngineState) (sql : String) :
    Except String ExecResult × QueryEngineState :=
  match executeOutcome st sql with
  | .ok (plan, result) =>
      let execution : ExecRecord :=
        { sql := sql, rowsAffected := some result.data.length, success := true
          error := none, executionPlan := some plan }
      (.ok { data := result.data, metadata := result.metadata, execution := execution },
       { st with queryHistory := st.queryHistory ++ [execution] })
  | .error e =>
      let execution : ExecRecord :=
        { sql := sql, rowsAffected := none, success := false
          error := some e, executionPlan := none }
      (.error e, { st with queryHistory := st.queryHistory ++ [execution] })

/-- JS `array.slice(-n)`: the last `n` elements — except that `-0 === 0`,
so `n = 0` copies the whole array. -/
def jsSliceLastN {α : Type} (l : List α) (n : ℕ) : List α :=
  if n = 0 then l else l.drop (l.length - n)

/-- `getHistory` (lines 311-313): `queryHistory.slice(-limit).reverse()`. -/
def getHistory (st : QueryEngineState) (limit : ℕ) : List ExecRecord :=
  (jsSliceLastN st.queryHistory limit).reverse

/-- `clearHistory` (lines 318-320). -/
def clearHistory (st : QueryEngineState) : QueryEngineState :=
  { st with queryHistory := [] }

/-! ## Specification-side definitions

Definitions used only to *state* properties (they are compared against the
embedded code, never used by it). -/

/-- Well-formedness of a table as `createTable` builds it: schema column
names are distinct (the spec's data model: "columns: mapping name→Column",
one per schema entry) and the column map is keyed exactly by them. -/
def TableWF (t : Table) : Prop :=
  (t.schema.map (·.name)).Nodup ∧ t.columns.map (·.1) = t.schema.map (·.name)

instance (t : Table) : Decidable (TableWF t) := by
  unfold TableWF; infer_instance

/-- Deduplication keeping first occurrences (`seen` accumulates the values
already kept). -/
def firstSeenAux (seen : List JsVal) : List JsVal → List JsVal
  | [] => []
  | v :: t => if v ∈ seen then firstSeenAux seen t else v :: firstSeenAux (v :: seen) t

/-- The distinct values of a list in first-seen order. -/
def firstSeen (l : List JsVal) : List JsVal := firstSeenAux [] l

/-- The dictionary invariant tying a string column to the sequence `orig`
of values inserted into it: codes are exactly `0, 1, …` in dictionary
order, keys are the distinct non-null values in first-seen order, and each
cell stores the null marker or its value's code. -/
def DictInv (orig : List JsVal) (c : Column) : Prop :=
  ∃ d, c.dictionary = some d ∧
    d.map (·.2) = List.range d.length ∧
    d.map (·.1) = firstSeen (orig.filter (fun v => v ≠ .null)) ∧
    c.data.length = orig.length ∧
    c.nullBitmap.length = orig.length ∧
    (∀ i v, orig.get? i = some v → v ≠ .null →
      ∃ code, (v, code) ∈ d ∧ c.data.get? i = some (.num (.fin (code : ℚ))) ∧
        c.nullBitmap.get? i = some 0) ∧
    (∀ i, orig.get? i = some .null →
      c.data.get? i = some .null ∧ c.nullBitmap.get? i = some 1)

/-- The sort keys of a result set are type-uniform (all finite numbers or
all strings), which is what makes the JS comparator a total preorder. -/
def SortKeyUniform (ob : OrderBy) (data : List Row) : Prop :=
  (∀ r ∈ data, ∃ q : ℚ, rowGet r ob.column = .num (.fin q)) ∨
  (∀ r ∈ data, ∃ s : String, rowGet r ob.column = .str s)

/-! ## Concrete fixtures used by witnesses and counterexamples -/

def exEmpty : Store := ⟨[]⟩

/-- C1: a one-string-column table. -/
def exStrS1 : Store := (createTable exEmpty "t" [⟨"c", "string"⟩]).1

/-- C1: the spec's example insertion sequence `["b","a","b"]`. -/
def exStrRows : List Row := [[("c", .str "b")], [("c", .str "a")], [("c", .str "b")]]

def exStrS2 : Store := (insert exStrS1 "t" exStrRows).2

/-- C2/C5/C6/C9: a one-integer-column table. -/
def exNumS1 : Store := (createTable exEmpty "t" [⟨"v", "integer"⟩]).1

def exNumTable : Table := (createTable exEmpty "t" [⟨"v", "integer"⟩]).2

/-- C6/C9: rows with `v = [3,1,2]`. -/
def exNumRows : List Row :=
  [[("v", .num (.fin 3))], [("v", .num (.fin 1))], [("v", .num (.fin 2))]]

def exNumS2 : Store := (insert exNumS1 "t" exNumRows).2

/-- C5: rows `v = [1, null, 3]` (the second row leaves `v` absent). -/
def exNullS2 : Store :=
  (insert exNumS1 "t" [[("v", .num (.fin 1))], [], [("v", .num (.fin 3))]]).2

/-- C1: the stored table and column of the `["b","a","b"]` fixture. -/
def exStrTable : Table :=
  (mapGet exStrS2.tables "t").getD (createTable exEmpty "t" []).2

def exStrCol : Column :=
  (mapGet exStrTable.columns "c").getD (initColumn ⟨"c", "string"⟩)

/-- C5: the stored table and column of the `v = [1, null, 3]` fixture. -/
def exNullTable : Table :=
  (mapGet exNullS2.tables "t").getD (createTable exEmpty "t" []).2

def exNullCol : Column :=
  (mapGet exNullTable.columns "v").getD (initColumn ⟨"v", "integer"⟩)

/-- C4: the claim's example rows for `GROUP BY d, SUM(v)`. -/
def exAggS1 : Store :=
  (createTable exEmpty "t" [⟨"d", "string"⟩, ⟨"v", "integer"⟩]).1

def exAggRows : List Row :=
  [[("d", .str "X"), ("v", .num (.fin 10))],
   [("d", .str "X"), ("v", .num (.fin 20))],
   [("d", .str "Y"), ("v", .num (.fin 5))]]

def exAggS2 : Store := (insert exAggS1 "t" exAggRows).2

/-- C4: the scan result of the example table (`scan` materializes the
original three rows; metadata counts 3 rows scanned, 3 returned, 2
columns). -/
def exAggScanRes : OpResult := { data := exAggRows, metadata := .scanMeta 3 3 2 }

/-- C4 counterexample: a string column to aggregate with MIN. -/
def exMinS2 : Store :=
  (insert (createTable exEmpty "t" [⟨"d", "string"⟩, ⟨"s", "string"⟩]).1 "t"
    [[("d", .str "X"), ("s", .str "a")]]).2

/-- C8: the engine state after one failed `execute`. -/
def exFailState : QueryEngineState := (execute ⟨exEmpty, []⟩ "DELETE FROM t").2

/-- C6: the query parsed from `SELECT * FROM t ORDER BY v DESC LIMIT 2`. -/
def exC6Query : Query :=
  { type := "SELECT", table := "t", columns := ["*"], wherePred := none
    groupBy := none, orderBy := some ⟨"v", "DESC"⟩, limit := some 2, aggregates := [] }

/-- C6: the raw (pre-ORDER BY) result of scanning the `v = [3,1,2]` table. -/
def exC6Raw : OpResult :=
  { data := [[("v", .num (.fin 3))], [("v", .num (.fin 1))], [("v", .num (.fin 2))]]
    metadata := .scanMeta 3 3 1 }

/-- C6 counterexample: the rows returned by the LIMIT 0 query. -/
def exC6LimitZeroData : List Row :=
  match (execute ⟨exNumS2, []⟩ "SELECT * FROM t ORDER BY v DESC LIMIT 0").1 with
  | .ok r => r.data
  | .error _ => []

/-! ## General lemmas about the embedding -/

theorem scan_store_unchanged (s : Store) (tn : String)
    (cols : Option (List String)) (p : Option Pred) :
    (scan s tn cols p).2 = s := by
  unfold scan
  repeat' split
  all_goals (try rfl)
  all_goals (dsimp only; repeat' split)
  all_goals rfl

theorem aggregate_store_unchanged (s : Store) (tn : String) (aggs : List Agg)
    (g : Option String) (p : Option Pred) :
    (aggregate s tn aggs g p).2 = s := by
  unfold aggregate
  split
  · rfl
  · rcases h : scan s tn none p with ⟨r, s1⟩
    have hs : s1 = s := by
      have h2 := scan_store_unchanged s tn none p
      rw [h] at h2
      exact h2
    subst hs
    cases r with
    | error e => rfl
    | ok sr =>
        dsimp only
        repeat' split
        all_goals rfl

/-! ## C10 -/

/-- C10 (confirmed): `scan` and `aggregate` leave the entire store — every
table's schema, columns, dictionaries, statistics, row count and metadata —
unchanged, whether they return a result or throw `TableNotFound`; in this
embedding of the class, mutation happens only in `createTable` and
`insert`, whose results carry an updated store. -/
theorem spec_C10_read_only_frame :
    ∀ (s : Store) (tn : String) (cols : Option (List String)) (p : Option Pred)
      (aggs : List Agg) (g : Option String),
      (scan s tn cols p).2 = s ∧ (aggregate s tn aggs g p).2 = s :=
  fun s tn cols p aggs g =>
    ⟨scan_store_unchanged s tn cols p, aggregate_store_unchanged s tn aggs g p⟩

/-! ## C3 -/

/-- C3 (code bug): the WHERE regex
`([\w]+)\s*(=|>|<|>=|<=|!=)\s*(['"]?)(.*?)\3` has an ordered alternation in
which `>` and `<` match before `>=` and `<=` ever can, and its lazy value
capture runs against an optionally-empty backreference, so every
*unquoted* value captures as the empty string; `!isNaN("")` holds in JS,
so the predicate value becomes `parseFloat("") = NaN`. The repository's own
example `WHERE salary > 50000` therefore yields the predicate
`{column: "salary", operator: ">", value: NaN}` (matching no rows), and
`age >= 30` degrades to operator `>` with value `NaN`; only quoted values
survive, as the third conjunct shows. -/
theorem spec_C3_parse_where_eval :
    parseWhere "salary > 50000" =
      .ok { column := "salary", operator := ">", value := .num .nan } ∧
    parseWhere "age >= 30" =
      .ok { column := "age", operator := ">", value := .num .nan } ∧
    parseWhere "department = 'Sales'" =
      .ok { column := "department", operator := "=", value := .str "Sales" } :=
  ⟨by decide, by decide, by decide⟩

/-! ## C7 -/

/-- C7 counterexample: parsing `"SELECT x y"` (no FROM) fails with
`InvalidSelectSyntax` ("Invalid SELECT syntax"), not with
`MissingFromClause` ("FROM clause is required") as the claim states: the
`SELECT…FROM` span regex is checked first and already fails. -/
theorem spec_C7_counterexample :
    parseSql "SELECT x y" = .error "Invalid SELECT syntax" ∧
    parseSql "SELECT x y" ≠ .error "FROM clause is required" :=
  ⟨by decide, by decide⟩

/-- C7 (corrected): any statement whose normalised text does not start
with `SELECT` (case-insensitive) fails with `UnsupportedStatement`
("Only SELECT queries are supported") — in particular `"DELETE FROM t"` —
while `"SELECT x y"` fails with `InvalidSelectSyntax` (the `SELECT…FROM`
span is missing); `MissingFromClause` is reached only when the span
matches but `FROM <ident>` does not, as in `"SELECT x FROM"`. -/
theorem spec_C7_parser_rejection :
    (∀ sql : String, upperStartsWithSelect (normalizeSql sql).toList = false →
      parseSql sql = .error "Only SELECT queries are supported") ∧
    parseSql "DELETE FROM t" = .error "Only SELECT queries are supported" ∧
    parseSql "SELECT x y" = .error "Invalid SELECT syntax" ∧
    parseSql "SELECT x FROM" = .error "FROM clause is required" := by
  refine ⟨?_, by decide, by decide, by decide⟩
  intro sql h
  unfold parseSql
  dsimp only
  rw [h]
  rfl

/-- Witness for C7: the universal part applied at `"DELETE FROM t"`. -/
theorem spec_C7_parser_rejection_witness :
    parseSql "DELETE FROM t" = .error "Only SELECT queries are supported" :=
  spec_C7_parser_rejection.1 "DELETE FROM t" (by decide)

/-! ## Association-list and insert lemmas (for C1, C2, C5) -/

theorem mapUpdate_keys {β : Type} (m : List (String × β)) (k : String) (f : β → β) :
    (mapUpdate m k f).map (·.1) = m.map (·.1) := by
  induction m with
  | nil => rfl
  | cons p t ih =>
      unfold mapUpdate
      split <;> simp_all

theorem mapGet_mapUpdate_self {β : Type} (m : List (String × β)) (k : String) (f : β → β) :
    mapGet (mapUpdate m k f) k = (mapGet m k).map f := by
  induction m with
  | nil => rfl
  | cons p t ih =>
      rcases p with ⟨k', v⟩
      unfold mapUpdate
      by_cases h : k' = k
      · subst h
        simp [mapGet]
      · simp only [if_neg h]
        unfold mapGet
        simp only [if_neg h]
        exact ih

theorem mapGet_mapUpdate_ne {β : Type} (m : List (String × β)) (k k' : String)
    (f : β → β) (h : k' ≠ k) :
    mapGet (mapUpdate m k f) k' = mapGet m k' := by
  induction m with
  | nil => rfl
  | cons p t ih =>
      rcases p with ⟨k0, v⟩
      unfold mapUpdate
      by_cases h0 : k0 = k
      · subst h0
        unfold mapGet
        simp [Ne.symm h]
      · simp only [if_neg h0]
        unfold mapGet
        split <;> simp_all

theorem mapGet_isSome_iff {β : Type} (m : List (String × β)) (k : String) :
    (mapGet m k).isSome ↔ k ∈ m.map (·.1) := by
  induction m with
  | nil => simp [mapGet]
  | cons p t ih =>
      rcases p with ⟨k0, v⟩
      unfold mapGet
      by_cases h0 : k0 = k
      · subst h0; simp
      · simp only [if_neg h0]
        rw [ih]
        simp [Ne.symm h0]

/-- The body of `insert`'s inner `schema.forEach` as one fold step. -/
theorem insertRow_fold_not_mem (schema : List SchemaCol) (r : Row)
    (cols : List (String × Column)) (n : String)
    (h : n ∉ schema.map (·.name)) :
    mapGet (schema.foldl
      (fun cols sc => mapUpdate cols sc.name
        (fun c => appendValue sc.type c (rowGet r sc.name))) cols) n = mapGet cols n := by
  induction schema generalizing cols with
  | nil => rfl
  | cons sc rest ih =>
      simp only [List.map_cons, List.mem_cons, not_or] at h
      rw [List.foldl_cons, ih _ h.2, mapGet_mapUpdate_ne _ _ _ _ h.1]

theorem insertRow_fold_mem (schema : List SchemaCol) (r : Row)
    (cols : List (String × Column)) (n : String) (sc : SchemaCol)
    (hnodup : (schema.map (·.name)).Nodup) (hmem : sc ∈ schema) (hname : sc.name = n) :
    mapGet (schema.foldl
      (fun cols sc => mapUpdate cols sc.name
        (fun c => appendValue sc.type c (rowGet r sc.name))) cols) n =
      (mapGet cols n).map (fun c => appendValue sc.type c (rowGet r n)) := by
  induction schema generalizing cols with
  | nil => cases hmem
  | cons sc0 rest ih =>
      simp only [List.map_cons, List.nodup_cons] at hnodup
      rw [List.foldl_cons]
      rcases List.mem_cons.mp hmem with h0 | h0
      · subst h0
        have hn : n ∉ rest.map (·.name) := by rw [← hname]; exact hnodup.1
        rw [insertRow_fold_not_mem _ _ _ _ hn, hname, mapGet_mapUpdate_self]
      · have hscn : n ∈ rest.map (·.name) := by
          rw [← hname]
          exact List.mem_map_of_mem _ h0
        have hne : n ≠ sc0.name := by
          intro he
          rw [he] at hscn
          exact hnodup.1 hscn
        rw [ih _ hnodup.2 h0, mapGet_mapUpdate_ne _ _ _ _ hne]

theorem insertRow_fold_keys (schema : List SchemaCol) (r : Row)
    (cols : List (String × Column)) :
    (schema.foldl
      (fun cols sc => mapUpdate cols sc.name
        (fun c => appendValue sc.type c (rowGet r sc.name))) cols).map (·.1) =
      cols.map (·.1) := by
  induction schema generalizing cols with
  | nil => rfl
  | cons sc rest ih => rw [List.foldl_cons, ih, mapUpdate_keys]

theorem insertRow_wf (t : Table) (r : Row) (h : TableWF t) : TableWF (insertRow t r) := by
  refine ⟨h.1, ?_⟩
  show (insertRow t r).columns.map (·.1) = t.schema.map (·.name)
  unfold insertRow
  dsimp only
  rw [insertRow_fold_keys]
  exact h.2

theorem insertRow_col (t : Table) (r : Row) (n : String) (sc : SchemaCol) (c : Column)
    (hwf : TableWF t) (hmem : sc ∈ t.schema) (hname : sc.name = n)
    (hc : mapGet t.columns n = some c) :
    mapGet (insertRow t r).columns n = some (appendValue sc.type c (rowGet r n)) := by
  unfold insertRow
  dsimp only
  rw [insertRow_fold_mem t.schema r t.columns n sc hwf.1 hmem hname, hc]
  rfl

/-- The cumulative effect of `insert`'s row loop on one column. -/
theorem insert_fold_col (rows : List Row) (t : Table) (n : String) (sc : SchemaCol)
    (c : Column) (hwf : TableWF t) (hmem : sc ∈ t.schema) (hname : sc.name = n)
    (hc : mapGet t.columns n = some c) :
    mapGet (rows.foldl insertRow t).columns n =
      some (rows.foldl (fun c r => appendValue sc.type c (rowGet r n)) c) ∧
    TableWF (rows.foldl insertRow t) ∧
    (rows.foldl insertRow t).schema = t.schema := by
  induction rows generalizing t c with
  | nil => exact ⟨hc, hwf, rfl⟩
  | cons r rest ih =>
      have h1 := insertRow_col t r n sc c hwf hmem hname hc
      have hwf1 := insertRow_wf t r hwf
      have hmem1 : sc ∈ (insertRow t r).schema := hmem
      exact ih (insertRow t r) _ hwf1 hmem1 h1

theorem updateColumnStats_fields (c : Column) (v : JsVal) :
    (updateColumnStats c v).data = c.data ∧
    (updateColumnStats c v).nullBitmap = c.nullBitmap ∧
    (updateColumnStats c v).dictionary = c.dictionary ∧
    (updateColumnStats c v).stats.nullCount = c.stats.nullCount ∧
    (updateColumnStats c v).stats.distinctCount = c.stats.distinctCount := by
  unfold updateColumnStats
  split <;> (dsimp only; split <;> simp)

theorem appendValue_lengths (ty : String) (c : Column) (v : JsVal) :
    (appendValue ty c v).data.length = c.data.length + 1 ∧
    (appendValue ty c v).nullBitmap.length = c.nullBitmap.length + 1 := by
  unfold appendValue
  split
  · simp
  · dsimp only
    split
    · constructor
      · rw [(updateColumnStats_fields _ _).1]
        simp
      · rw [(updateColumnStats_fields _ _).2.1]
        simp
    · constructor
      · rw [(updateColumnStats_fields _ _).1]
        simp
      · rw [(updateColumnStats_fields _ _).2.1]
        simp

theorem appendValue_fold_lengths (ty n : String) (rows : List Row) (c : Column) :
    (rows.foldl (fun c r => appendValue ty c (rowGet r n)) c).data.length =
      c.data.length + rows.length ∧
    (rows.foldl (fun c r => appendValue ty c (rowGet r n)) c).nullBitmap.length =
      c.nullBitmap.length + rows.length := by
  induction rows generalizing c with
  | nil => exact ⟨rfl, rfl⟩
  | cons r rest ih =>
      rw [List.foldl_cons]
      obtain ⟨ha, hb⟩ := ih (appendValue ty c (rowGet r n))
      obtain ⟨hc1, hc2⟩ := appendValue_lengths ty c (rowGet r n)
      constructor
      · rw [ha, hc1, List.length_cons]
        omega
      · rw [hb, hc2, List.length_cons]
        omega

theorem calculateCompression_fields (t : Table) :
    ((calculateCompression t).2).columns = t.columns ∧
    ((calculateCompression t).2).rowCount = t.rowCount ∧
    ((calculateCompression t).2).schema = t.schema :=
  ⟨rfl, rfl, rfl⟩

theorem insert_fold_rowCount (rows : List Row) (t : Table) :
    (rows.foldl insertRow t).rowCount = t.rowCount + rows.length := by
  induction rows generalizing t with
  | nil => rfl
  | cons r rest ih =>
      rw [List.foldl_cons, ih]
      show (insertRow t r).rowCount + rest.length = t.rowCount + (rest.length + 1)
      unfold insertRow
      dsimp only
      omega

theorem insert_fold_wf (rows : List Row) (t : Table) (h : TableWF t) :
    TableWF (rows.foldl insertRow t) := by
  induction rows generalizing t with
  | nil => exact h
  | cons r rest ih => exact ih (insertRow t r) (insertRow_wf t r h)

theorem insert_fold_schema (rows : List Row) (t : Table) :
    (rows.foldl insertRow t).schema = t.schema := by
  induction rows generalizing t with
  | nil => rfl
  | cons r rest ih => exact ih (insertRow t r)

/-! ## C2 -/

/-- C2 (confirmed): on a well-formed table (distinct schema names, column
map keyed by them — exactly what `createTable` builds), inserting a batch
of `k` rows succeeds, reports `rowsInserted = k`, grows every column's
`data` and `nullBitmap` by exactly `k` entries and `rowCount` by exactly
`k`; consequently, if every column's lengths equalled `rowCount` before
the insert, they equal it afterwards. -/
theorem spec_C2_row_count_invariant :
    ∀ (s : Store) (tn : String) (rows : List Row) (t : Table),
      mapGet s.tables tn = some t → TableWF t →
      ∃ (r : InsertResult) (t' : Table),
        insert s tn rows = (.ok r, ⟨mapSet s.tables tn t'⟩) ∧
        r.rowsInserted = rows.length ∧
        t'.rowCount = t.rowCount + rows.length ∧
        (∀ n c, mapGet t.columns n = some c →
          ∃ c', mapGet t'.columns n = some c' ∧
            c'.data.length = c.data.length + rows.length ∧
            c'.nullBitmap.length = c.nullBitmap.length + rows.length) ∧
        ((∀ n c, mapGet t.columns n = some c →
            c.data.length = t.rowCount ∧ c.nullBitmap.length = t.rowCount) →
          ∀ n c', mapGet t'.columns n = some c' →
            c'.data.length = t'.rowCount ∧ c'.nullBitmap.length = t'.rowCount) := by
  intro s tn rows t hget hwf
  unfold insert
  rw [hget]
  dsimp only
  rcases hcc : calculateCompression (rows.foldl insertRow t) with ⟨cr0, t20⟩
  have hfields := calculateCompression_fields (rows.foldl insertRow t)
  rw [hcc] at hfields
  dsimp only at hfields
  refine ⟨{ rowsInserted := rows.length, compressionFactor := cr0 }, t20, rfl, rfl, ?_, ?_, ?_⟩
  · rw [hfields.2.1, insert_fold_rowCount]
  · intro n c hc
    have hn : n ∈ t.schema.map (·.name) := by
      rw [← hwf.2, ← mapGet_isSome_iff]
      simp [hc]
    obtain ⟨sc, hmem, hname⟩ := List.mem_map.mp hn
    obtain ⟨ha, -, -⟩ := insert_fold_col rows t n sc c hwf hmem hname hc
    refine ⟨_, ?_, (appendValue_fold_lengths sc.type n rows c).1,
      (appendValue_fold_lengths sc.type n rows c).2⟩
    rw [hfields.1]
    exact ha
  · intro hpre n c' hc'
    rw [hfields.1] at hc'
    have hwf1 := insert_fold_wf rows t hwf
    have hn : n ∈ t.schema.map (·.name) := by
      rw [← insert_fold_schema rows t, ← hwf1.2, ← mapGet_isSome_iff]
      simp [hc']
    obtain ⟨sc, hmem, hname⟩ := List.mem_map.mp hn
    have hcpre : (mapGet t.columns n).isSome := by
      rw [mapGet_isSome_iff, hwf.2]
      exact hn
    obtain ⟨c, hc⟩ := Option.isSome_iff_exists.mp hcpre
    obtain ⟨ha, -, -⟩ := insert_fold_col rows t n sc c hwf hmem hname hc
    rw [ha] at hc'
    injection hc' with hc'
    subst hc'
    obtain ⟨hl1, hl2⟩ := hpre n c hc
    rw [hfields.2.1, insert_fold_rowCount]
    constructor
    · rw [(appendValue_fold_lengths sc.type n rows c).1, hl1]
    · rw [(appendValue_fold_lengths sc.type n rows c).2, hl2]

/-- Witness for C2: the theorem applied to the fresh one-column `v` table
and a two-row batch. -/
theorem spec_C2_row_count_invariant_witness :
    ∃ (r : InsertResult) (t' : Table),
      insert exNumS1 "t" [[("v", JsVal.num (.fin 3))], [("v", JsVal.num (.fin 1))]] =
        (.ok r, ⟨mapSet exNumS1.tables "t" t'⟩) ∧
      r.rowsInserted = 2 ∧
      t'.rowCount = exNumTable.rowCount + 2 ∧
      (∀ n c, mapGet exNumTable.columns n = some c →
        ∃ c', mapGet t'.columns n = some c' ∧
          c'.data.length = c.data.length + 2 ∧
          c'.nullBitmap.length = c.nullBitmap.length + 2) ∧
      ((∀ n c, mapGet exNumTable.columns n = some c →
          c.data.length = exNumTable.rowCount ∧
          c.nullBitmap.length = exNumTable.rowCount) →
        ∀ n c', mapGet t'.columns n = some c' →
          c'.data.length = t'.rowCount ∧ c'.nullBitmap.length = t'.rowCount) :=
  spec_C2_row_count_invariant exNumS1 "t"
    [[("v", JsVal.num (.fin 3))], [("v", JsVal.num (.fin 1))]] exNumTable
    (by decide) (by decide)

/-! ## Dictionary and first-seen lemmas (for C1) -/

theorem mapGet_mapSet_self {β : Type} (m : List (String × β)) (k : String) (v : β) :
    mapGet (mapSet m k v) k = some v := by
  induction m with
  | nil => simp [mapSet, mapGet]
  | cons p t ih =>
      rcases p with ⟨k0, v0⟩
      unfold mapSet
      by_cases h : k0 = k
      · subst h
        simp [mapGet]
      · simp only [if_neg h]
        unfold mapGet
        simp only [if_neg h]
        exact ih

theorem mapGet_mapSet_ne {β : Type} (m : List (String × β)) (k k' : String) (v : β)
    (h : k' ≠ k) : mapGet (mapSet m k v) k' = mapGet m k' := by
  induction m with
  | nil => simp [mapSet, mapGet, Ne.symm h]
  | cons p t ih =>
      rcases p with ⟨k0, v0⟩
      unfold mapSet
      by_cases h0 : k0 = k
      · subst h0
        unfold mapGet
        simp [Ne.symm h]
      · simp only [if_neg h0]
        unfold mapGet
        split <;> simp_all

theorem mapSet_keys_new {β : Type} (m : List (String × β)) (k : String) (v : β)
    (h : k ∉ m.map (·.1)) : (mapSet m k v).map (·.1) = m.map (·.1) ++ [k] := by
  induction m with
  | nil => rfl
  | cons p t ih =>
      rcases p with ⟨k0, v0⟩
      simp only [List.map_cons, List.mem_cons, not_or] at h
      unfold mapSet
      simp only [if_neg (Ne.symm h.1)]
      simp [ih h.2]

theorem createCols_fold_not_mem (schema : List SchemaCol)
    (m : List (String × Column)) (n : String) (h : n ∉ schema.map (·.name)) :
    mapGet (schema.foldl (fun cols sc => mapSet cols sc.name (initColumn sc)) m) n =
      mapGet m n := by
  induction schema generalizing m with
  | nil => rfl
  | cons sc rest ih =>
      simp only [List.map_cons, List.mem_cons, not_or] at h
      rw [List.foldl_cons, ih _ h.2, mapGet_mapSet_ne _ _ _ _ h.1]

theorem createCols_get (schema : List SchemaCol) (m : List (String × Column))
    (n : String) (sc : SchemaCol) (hnodup : (schema.map (·.name)).Nodup)
    (hmem : sc ∈ schema) (hname : sc.name = n) :
    mapGet (schema.foldl (fun cols sc => mapSet cols sc.name (initColumn sc)) m) n =
      some (initColumn sc) := by
  induction schema generalizing m with
  | nil => cases hmem
  | cons sc0 rest ih =>
      simp only [List.map_cons, List.nodup_cons] at hnodup
      rw [List.foldl_cons]
      rcases List.mem_cons.mp hmem with h0 | h0
      · subst h0
        have hn : n ∉ rest.map (·.name) := by
          rw [← hname]
          exact hnodup.1
        rw [createCols_fold_not_mem _ _ _ hn, hname, mapGet_mapSet_self]
      · have hscn : n ∈ rest.map (·.name) := by
          rw [← hname]
          exact List.mem_map_of_mem _ h0
        exact ih _ hnodup.2 h0

theorem createCols_keys (schema : List SchemaCol) (m : List (String × Column))
    (hfresh : ∀ sc ∈ schema, sc.name ∉ m.map (·.1))
    (hnodup : (schema.map (·.name)).Nodup) :
    (schema.foldl (fun cols sc => mapSet cols sc.name (initColumn sc)) m).map (·.1) =
      m.map (·.1) ++ schema.map (·.name) := by
  induction schema generalizing m with
  | nil => simp
  | cons sc rest ih =>
      simp only [List.map_cons, List.nodup_cons] at hnodup
      rw [List.foldl_cons]
      have hkeys1 := mapSet_keys_new m sc.name (initColumn sc) (hfresh sc (by simp))
      have hfresh1 : ∀ sc' ∈ rest, sc'.name ∉ (mapSet m sc.name (initColumn sc)).map (·.1) := by
        intro sc' hsc'
        rw [hkeys1]
        simp only [List.mem_append, List.mem_singleton, not_or]
        refine ⟨hfresh sc' (by simp [hsc']), ?_⟩
        intro he
        rw [← he] at hnodup
        exact hnodup.1 (List.mem_map_of_mem _ hsc')
      rw [ih _ hfresh1 hnodup.2, hkeys1]
      simp

theorem createTable_table (s : Store) (tn : String) (schema : List SchemaCol)
    (hnodup : (schema.map (·.name)).Nodup) :
    mapGet ((createTable s tn schema).1).tables tn = some (createTable s tn schema).2 ∧
    TableWF (createTable s tn schema).2 := by
  constructor
  · exact mapGet_mapSet_self _ _ _
  · refine ⟨hnodup, ?_⟩
    show (createTable s tn schema).2.columns.map (·.1) = schema.map (·.name)
    unfold createTable
    dsimp only
    rw [createCols_keys schema [] (by simp) hnodup]
    rfl

theorem dictHas_iff_mem (d : Dict) (k : JsVal) :
    dictHas d k = true ↔ k ∈ d.map (·.1) := by
  induction d with
  | nil => simp [dictHas]
  | cons p t ih =>
      rcases p with ⟨k0, v0⟩
      unfold dictHas
      by_cases h : k0 = k
      · subst h
        simp
      · simp only [if_neg h]
        rw [ih]
        simp [Ne.symm h]

theorem dictGet_mem (d : Dict) (k : JsVal) (c : ℕ) (h : dictGet d k = some c) :
    (k, c) ∈ d := by
  induction d with
  | nil => cases h
  | cons p t ih =>
      rcases p with ⟨k0, v0⟩
      unfold dictGet at h
      by_cases h0 : k0 = k
      · rw [if_pos h0] at h
        injection h with h
        subst h0
        subst h
        simp
      · rw [if_neg h0] at h
        simp [ih h]

theorem dictHas_get (d : Dict) (k : JsVal) (h : dictHas d k = true) :
    ∃ c, dictGet d k = some c := by
  induction d with
  | nil => cases h
  | cons p t ih =>
      rcases p with ⟨k0, v0⟩
      unfold dictHas at h
      unfold dictGet
      by_cases h0 : k0 = k
      · exact ⟨v0, by rw [if_pos h0]⟩
      · rw [if_neg h0] at h
        rw [if_neg h0]
        exact ih h

theorem dictGet_append_new (d : Dict) (k : JsVal) (c : ℕ)
    (h : dictHas d k = false) : dictGet (d ++ [(k, c)]) k = some c := by
  induction d with
  | nil => simp [dictGet]
  | cons p t ih =>
      rcases p with ⟨k0, v0⟩
      unfold dictHas at h
      rw [List.cons_append]
      by_cases h0 : k0 = k
      · rw [if_pos h0] at h
        cases h
      · rw [if_neg h0] at h
        show (if k0 = k then some v0 else dictGet (t ++ [(k, c)]) k) = some c
        rw [if_neg h0]
        exact ih h

theorem mem_firstSeenAux (seen l : List JsVal) (x : JsVal) :
    x ∈ firstSeenAux seen l ↔ x ∈ l ∧ x ∉ seen := by
  induction l generalizing seen with
  | nil => simp [firstSeenAux]
  | cons v t ih =>
      unfold firstSeenAux
      by_cases h : v ∈ seen
      · rw [if_pos h, ih]
        simp only [List.mem_cons]
        constructor
        · rintro ⟨hx, hs⟩
          exact ⟨Or.inr hx, hs⟩
        · rintro ⟨hx | hx, hs⟩
          · exact absurd (hx ▸ h) hs
          · exact ⟨hx, hs⟩
      · rw [if_neg h]
        simp only [List.mem_cons, ih (v :: seen)]
        constructor
        · rintro (rfl | ⟨hx, hs⟩)
          · exact ⟨Or.inl rfl, h⟩
          · simp only [List.mem_cons, not_or] at hs
            exact ⟨Or.inr hx, hs.2⟩
        · rintro ⟨rfl | hx, hs⟩
          · exact Or.inl rfl
          · by_cases hxv : x = v
            · exact Or.inl hxv
            · exact Or.inr ⟨hx, by simp [hxv, hs]⟩

theorem mem_firstSeen (l : List JsVal) (x : JsVal) :
    x ∈ firstSeen l ↔ x ∈ l := by
  unfold firstSeen
  rw [mem_firstSeenAux]
  simp

theorem firstSeenAux_append (seen l : List JsVal) (v : JsVal) :
    firstSeenAux seen (l ++ [v]) =
      firstSeenAux seen l ++ (if v ∈ seen ∨ v ∈ l then [] else [v]) := by
  induction l generalizing seen with
  | nil =>
      unfold firstSeenAux
      by_cases h : v ∈ seen <;> simp [firstSeenAux, h]
  | cons w t ih =>
      simp only [List.cons_append]
      unfold firstSeenAux
      by_cases h : w ∈ seen
      · rw [if_pos h, if_pos h, ih]
        congr 1
        have : (v ∈ seen ∨ v ∈ t) ↔ (v ∈ seen ∨ v ∈ w :: t) := by
          simp only [List.mem_cons]
          constructor
          · rintro (hv | hv)
            · exact Or.inl hv
            · exact Or.inr (Or.inr hv)
          · rintro (hv | rfl | hv)
            · exact Or.inl hv
            · exact Or.inl h
            · exact Or.inr hv
        rw [if_congr this rfl rfl]
      · rw [if_neg h, if_neg h, ih (w :: seen)]
        simp only [List.cons_append, List.append_assoc]
        congr 2
        have : (v ∈ w :: seen ∨ v ∈ t) ↔ (v ∈ seen ∨ v ∈ w :: t) := by
          simp only [List.mem_cons]
          constructor
          · rintro ((rfl | hv) | hv)
            · exact Or.inr (Or.inl rfl)
            · exact Or.inl hv
            · exact Or.inr (Or.inr hv)
          · rintro (hv | rfl | hv)
            · exact Or.inl (Or.inr hv)
            · exact Or.inl (Or.inl rfl)
            · exact Or.inr hv
        rw [if_congr this rfl rfl]

theorem firstSeen_append (l : List JsVal) (v : JsVal) :
    firstSeen (l ++ [v]) = firstSeen l ++ (if v ∈ l then [] else [v]) := by
  unfold firstSeen
  rw [firstSeenAux_append]
  simp

theorem jsStrictEq_fin (a b : ℚ) :
    jsStrictEq (.num (.fin a)) (.num (.fin b)) = decide (a = b) := by
  unfold jsStrictEq
  simp

theorem find_by_code (d : Dict) (k : JsVal) (c : ℕ)
    (hnodup : (d.map (·.2)).Nodup) (hmem : (k, c) ∈ d) :
    d.find? (fun p => jsStrictEq (.num (.fin (p.2 : ℚ))) (.num (.fin (c : ℚ)))) =
      some (k, c) := by
  induction d with
  | nil => cases hmem
  | cons p t ih =>
      rcases p with ⟨k0, c0⟩
      simp only [List.map_cons, List.nodup_cons] at hnodup
      rw [List.find?_cons]
      by_cases h0 : c0 = c
      · subst h0
        have hp : jsStrictEq (.num (.fin ((k0, c0).2 : ℚ))) (.num (.fin (c0 : ℚ))) = true := by
          rw [jsStrictEq_fin]
          simp
        rw [hp]
        rcases List.mem_cons.mp hmem with h1 | h1
        · rw [h1]
        · exact absurd (List.mem_map_of_mem (·.2) h1) hnodup.1
      · have hp : jsStrictEq (.num (.fin ((k0, c0).2 : ℚ))) (.num (.fin (c : ℚ))) = false := by
          rw [jsStrictEq_fin]
          simp [h0]
        rw [hp]
        rcases List.mem_cons.mp hmem with h1 | h1
        · cases h1
          exact absurd rfl h0
        · exact ih hnodup.2 h1

/-! ## The dictionary invariant (C1) -/

theorem appendValue_null (ty : String) (c : Column) :
    (appendValue ty c .null).nullBitmap = c.nullBitmap ++ [1] ∧
    (appendValue ty c .null).data = c.data ++ [JsVal.null] ∧
    (appendValue ty c .null).stats.nullCount = c.stats.nullCount + 1 ∧
    (appendValue ty c .null).stats.statMin = c.stats.statMin ∧
    (appendValue ty c .null).stats.statMax = c.stats.statMax ∧
    (appendValue ty c .null).stats.distinctCount = c.stats.distinctCount ∧
    (appendValue ty c .null).dictionary = c.dictionary := by
  unfold appendValue
  simp

theorem appendValue_string_nonnull (c : Column) (v : JsVal) (d : Dict)
    (hv : v ≠ .null) (hd : c.dictionary = some d) :
    appendValue "string" c v =
      updateColumnStats
        { c with
          nullBitmap := c.nullBitmap ++ [0]
          dictionary := some (if dictHas d v then d else d ++ [(v, d.length)])
          data := c.data ++ [.num (.fin
            (((dictGet (if dictHas d v then d else d ++ [(v, d.length)]) v).getD 0 : ℕ) : ℚ))] }
        v := by
  unfold appendValue
  rw [if_neg hv]
  dsimp only
  simp only [hd]
  rfl

theorem dictInv_append (orig : List JsVal) (c : Column) (v : JsVal)
    (hinv : DictInv orig c) : DictInv (orig ++ [v]) (appendValue "string" c v) := by
  obtain ⟨d, hd, hcodes, hkeys, hlen1, hlen2, hcells, hnulls⟩ := hinv
  by_cases hv : v = .null
  · subst hv
    obtain ⟨hb, hdt, -, -, -, -, hdict⟩ := appendValue_null "string" c
    refine ⟨d, by rw [hdict]; exact hd, hcodes, ?_, ?_, ?_, ?_, ?_⟩
    · rw [hkeys]
      congr 1
      simp [List.filter_append]
    · rw [hdt]
      simp [hlen1]
    · rw [hb]
      simp [hlen2]
    · intro i w hw hnn
      rcases Nat.lt_trichotomy i orig.length with hlt | heq | hgt
      · rw [List.get?_append hlt] at hw
        obtain ⟨code, h1, h2, h3⟩ := hcells i w hw hnn
        refine ⟨code, h1, ?_, ?_⟩
        · rw [hdt, List.get?_append (by rw [hlen1]; exact hlt)]
          exact h2
        · rw [hb, List.get?_append (by rw [hlen2]; exact hlt)]
          exact h3
      · subst heq
        rw [List.get?_concat_length] at hw
        injection hw with hw
        exact absurd hw.symm hnn
      · rw [List.get?_eq_none.mpr (by simp; omega)] at hw
        cases hw
    · intro i hw
      rcases Nat.lt_trichotomy i orig.length with hlt | heq | hgt
      · rw [List.get?_append hlt] at hw
        obtain ⟨h1, h2⟩ := hnulls i hw
        constructor
        · rw [hdt, List.get?_append (by rw [hlen1]; exact hlt)]
          exact h1
        · rw [hb, List.get?_append (by rw [hlen2]; exact hlt)]
          exact h2
      · subst heq
        constructor
        · rw [hdt, ← hlen1, List.get?_concat_length]
        · rw [hb, ← hlen2, List.get?_concat_length]
      · rw [List.get?_eq_none.mpr (by simp; omega)] at hw
        cases hw
  · have happ := appendValue_string_nonnull c v d hv hd
    have hfields := updateColumnStats_fields
      ({ c with
        nullBitmap := c.nullBitmap ++ [0]
        dictionary := some (if dictHas d v then d else d ++ [(v, d.length)])
        data := c.data ++ [.num (.fin
          (((dictGet (if dictHas d v then d else d ++ [(v, d.length)]) v).getD 0 : ℕ) : ℚ))] })
      v
    obtain ⟨hdt0, hb0, hdict0, -, -⟩ := hfields
    rw [← happ] at hdt0 hb0 hdict0
    have hcode : ∃ code, dictGet (if dictHas d v then d else d ++ [(v, d.length)]) v =
        some code := by
      by_cases hhas : dictHas d v = true
      · rw [if_pos hhas]
        exact dictHas_get d v hhas
      · rw [if_neg hhas]
        exact ⟨d.length, dictGet_append_new d v d.length (by
          rw [Bool.eq_false_iff]
          exact hhas)⟩
    obtain ⟨code0, hcode0⟩ := hcode
    have hfilter : (orig ++ [v]).filter (fun w => w ≠ .null) =
        orig.filter (fun w => w ≠ .null) ++ [v] := by
      rw [List.filter_append]
      simp [hv]
    refine ⟨if dictHas d v then d else d ++ [(v, d.length)], hdict0, ?_, ?_, ?_, ?_, ?_, ?_⟩
    · by_cases hhas : dictHas d v = true
      · rw [if_pos hhas]
        exact hcodes
      · rw [if_neg hhas]
        simp only [List.map_append, List.length_append, List.map_cons, List.map_nil,
          List.length_cons, List.length_nil]
        rw [hcodes]
        have : d.length + (0 + 1) = d.length + 1 := by omega
        rw [this, List.range_succ]
    · rw [hfilter, firstSeen_append]
      by_cases hhas : dictHas d v = true
      · have hvm : v ∈ orig.filter (fun w => w ≠ .null) := by
          rw [← mem_firstSeen, ← hkeys]
          exact (dictHas_iff_mem d v).mp hhas
        rw [if_pos hhas, if_pos hvm]
        simp [hkeys]
      · have hvm : v ∉ orig.filter (fun w => w ≠ .null) := by
          rw [← mem_firstSeen, ← hkeys]
          intro hmem
          exact hhas ((dictHas_iff_mem d v).mpr hmem)
        rw [if_neg hhas, if_neg hvm]
        simp [hkeys]
    · rw [hdt0]
      simp [hlen1]
    · rw [hb0]
      simp [hlen2]
    · intro i w hw hnn
      rcases Nat.lt_trichotomy i orig.length with hlt | heq | hgt
      · rw [List.get?_append hlt] at hw
        obtain ⟨code, h1, h2, h3⟩ := hcells i w hw hnn
        refine ⟨code, ?_, ?_, ?_⟩
        · by_cases hhas : dictHas d v = true
          · rw [if_pos hhas]
            exact h1
          · rw [if_neg hhas]
            exact List.mem_append_left _ h1
        · rw [hdt0, List.get?_append (by rw [hlen1]; exact hlt)]
          exact h2
        · rw [hb0, List.get?_append (by rw [hlen2]; exact hlt)]
          exact h3
      · subst heq
        rw [List.get?_concat_length] at hw
        injection hw with hw
        subst hw
        refine ⟨code0, dictGet_mem _ _ _ hcode0, ?_, ?_⟩
        · rw [hdt0, ← hlen1, List.get?_concat_length, hcode0]
          rfl
        · rw [hb0, ← hlen2, List.get?_concat_length]
      · rw [List.get?_eq_none.mpr (by simp; omega)] at hw
        cases hw
    · intro i hw
      rcases Nat.lt_trichotomy i orig.length with hlt | heq | hgt
      · rw [List.get?_append hlt] at hw
        obtain ⟨h1, h2⟩ := hnulls i hw
        constructor
        · rw [hdt0, List.get?_append (by rw [hlen1]; exact hlt)]
          exact h1
        · rw [hb0, List.get?_append (by rw [hlen2]; exact hlt)]
          exact h2
      · subst heq
        rw [List.get?_concat_length] at hw
        injection hw with hw
        exact absurd hw hv
      · rw [List.get?_eq_none.mpr (by simp; omega)] at hw
        cases hw

theorem dictInv_fold (vs orig : List JsVal) (c : Column) (hinv : DictInv orig c) :
    DictInv (orig ++ vs) (vs.foldl (appendValue "string") c) := by
  induction vs generalizing orig c with
  | nil => simpa using hinv
  | cons v rest ih =>
      rw [List.foldl_cons]
      have h1 := dictInv_append orig c v hinv
      have h2 := ih (orig ++ [v]) _ h1
      simpa [List.append_assoc] using h2

theorem dictInv_init (nm : String) : DictInv [] (initColumn ⟨nm, "string"⟩) := by
  refine ⟨[], rfl, rfl, rfl, rfl, rfl, ?_, ?_⟩ <;> intro i <;> simp

theorem dictInv_decode (orig : List JsVal) (c : Column) (hinv : DictInv orig c)
    (i : ℕ) (v : JsVal) (hv : orig.get? i = some v) (hnn : v ≠ .null) :
    materializeCell c i = v := by
  obtain ⟨d, hd, hcodes, hkeys, hlen1, hlen2, hcells, hnulls⟩ := hinv
  obtain ⟨code, hmem, hdata, hbit⟩ := hcells i v hv hnn
  have hnodup : (d.map (·.2)).Nodup := by
    rw [hcodes]
    exact List.nodup_range _
  unfold materializeCell decodeCell
  rw [hdata, hd, hbit]
  simp only [Option.getD_some]
  rw [if_neg (by simp : ¬ (JsVal.num (.fin (code : ℚ)) = JsVal.null))]
  rw [find_by_code d v code hnodup hmem]
  simp

/-! ## C1 -/

/-- C1 (confirmed): insert any sequence of values (the claim's string
values, or nulls — in fact any non-null values) into a string column of a
freshly created table. Then the column stores an integer code per non-null
value, the dictionary's codes are exactly `0, 1, 2, …` assigned to the
distinct non-null values in first-seen order, and decoding every stored
code the way `scan` does (`materializeCell`: dictionary reverse lookup,
then the presence substitution) reproduces exactly the original value
sequence. -/
theorem spec_C1_dictionary_roundtrip :
    ∀ (s0 : Store) (tn nm : String) (schema : List SchemaCol) (rows : List Row),
      (schema.map (·.name)).Nodup →
      (⟨nm, "string"⟩ : SchemaCol) ∈ schema →
      ∃ (t' : Table) (c : Column) (d : Dict),
        mapGet ((insert (createTable s0 tn schema).1 tn rows).2).tables tn = some t' ∧
        mapGet t'.columns nm = some c ∧
        c.dictionary = some d ∧
        d.map (·.2) = List.range d.length ∧
        d.map (·.1) =
          firstSeen ((rows.map (fun r => rowGet r nm)).filter (fun w => w ≠ .null)) ∧
        (∀ i v, (rows.map (fun r => rowGet r nm)).get? i = some v → v ≠ .null →
          ∃ code, (v, code) ∈ d ∧
            c.data.get? i = some (.num (.fin (code : ℚ))) ∧
            materializeCell c i = v) := by
  intro s0 tn nm schema rows hnodup hmem
  obtain ⟨hget, hwf⟩ := createTable_table s0 tn schema hnodup
  have hcol : mapGet ((createTable s0 tn schema).2).columns nm =
      some (initColumn ⟨nm, "string"⟩) := by
    show mapGet (schema.foldl (fun cols sc => mapSet cols sc.name (initColumn sc)) []) nm =
      some (initColumn ⟨nm, "string"⟩)
    exact createCols_get schema [] nm ⟨nm, "string"⟩ hnodup hmem rfl
  obtain ⟨hfold, -, -⟩ := insert_fold_col rows ((createTable s0 tn schema).2) nm
    ⟨nm, "string"⟩ (initColumn ⟨nm, "string"⟩) hwf hmem rfl hcol
  have hvalfold : rows.foldl
      (fun c r => appendValue ("string") c (rowGet r nm)) (initColumn ⟨nm, "string"⟩) =
      (rows.map (fun r => rowGet r nm)).foldl (appendValue "string")
        (initColumn ⟨nm, "string"⟩) := by
    rw [List.foldl_map]
  have hinv : DictInv (rows.map (fun r => rowGet r nm))
      (rows.foldl (fun c r => appendValue "string" c (rowGet r nm))
        (initColumn ⟨nm, "string"⟩)) := by
    rw [hvalfold]
    have := dictInv_fold (rows.map (fun r => rowGet r nm)) [] _ (dictInv_init nm)
    simpa using this
  unfold insert
  rw [hget]
  dsimp only
  rcases hcc : calculateCompression
      (rows.foldl insertRow ((createTable s0 tn schema).2)) with ⟨cr0, t20⟩
  have hfields := calculateCompression_fields
    (rows.foldl insertRow ((createTable s0 tn schema).2))
  rw [hcc] at hfields
  dsimp only at hfields
  have hinv2 := hinv
  obtain ⟨d, hd, hcodes, hkeys, -, -, hcells, -⟩ := hinv2
  refine ⟨t20, _, d, mapGet_mapSet_self _ _ _, ?_, hd, hcodes, hkeys, ?_⟩
  · rw [hfields.1]
    exact hfold
  · intro i v hv hnn
    obtain ⟨code, h1, h2, h3⟩ := hcells i v hv hnn
    exact ⟨code, h1, h2, dictInv_decode _ _ hinv i v hv hnn⟩

/-- Witness for C1: the theorem applied to the spec's `["b","a","b"]`
example, with the concrete dictionary `{b:0, a:1}` and the full `scan`
round-trip checked by evaluation. -/
theorem spec_C1_dictionary_roundtrip_witness :
    (∃ (t' : Table) (c : Column) (d : Dict),
      mapGet ((insert (createTable exEmpty "t" [⟨"c", "string"⟩]).1 "t"
          exStrRows).2).tables "t" = some t' ∧
      mapGet t'.columns "c" = some c ∧
      c.dictionary = some d ∧
      d.map (·.2) = List.range d.length ∧
      d.map (·.1) =
        firstSeen ((exStrRows.map (fun r => rowGet r "c")).filter (fun w => w ≠ .null)) ∧
      (∀ i v, (exStrRows.map (fun r => rowGet r "c")).get? i = some v → v ≠ .null →
        ∃ code, (v, code) ∈ d ∧
          c.data.get? i = some (.num (.fin (code : ℚ))) ∧
          materializeCell c i = v)) ∧
    exStrCol.dictionary = some [(.str "b", 0), (.str "a", 1)] ∧
    (scan exStrS2 "t" none none).1 =
      .ok { data := [[("c", .str "b")], [("c", .str "a")], [("c", .str "b")]]
            metadata := .scanMeta 3 3 1 } :=
  ⟨spec_C1_dictionary_roundtrip exEmpty "t" "c" [⟨"c", "string"⟩] exStrRows
    (by decide) (by decide), by decide, by decide⟩

/-! ## C5 -/

theorem predMatchAt_null (c : Column) (p : Pred) (i : ℕ)
    (h : (c.nullBitmap.get? i).getD 0 ≠ 0) : predMatchAt c p i = false := by
  unfold predMatchAt
  rw [if_pos h]

theorem applyPredicate_null (t : Table) (c : Column) (p : Pred) (i : ℕ)
    (hi : i < t.rowCount) (h : (c.nullBitmap.get? i).getD 0 ≠ 0) :
    (applyPredicate t c p).get? i = some false := by
  unfold applyPredicate
  rw [List.get?_map, List.get?_range hi]
  simp [predMatchAt_null c p i h]

/-- C5 (confirmed): a null or absent row field makes `insert`'s per-field
step (whose connection to `insert` the second conjunct states) push the
presence flag `1`, push `null` into the data, and increment `nullCount`,
while leaving `min`, `max` and the distinct count untouched; and
`applyPredicate`'s per-row evaluation (third conjunct, lifted to the match
bitmap in the fourth) rejects a row whose value in the predicate's column
is null, for *every* operator string, recognised or not. -/
theorem spec_C5_null_handling :
    (∀ (ty : String) (c : Column),
      (appendValue ty c .null).nullBitmap = c.nullBitmap ++ [1] ∧
      (appendValue ty c .null).data = c.data ++ [JsVal.null] ∧
      (appendValue ty c .null).stats.nullCount = c.stats.nullCount + 1 ∧
      (appendValue ty c .null).stats.statMin = c.stats.statMin ∧
      (appendValue ty c .null).stats.statMax = c.stats.statMax ∧
      (appendValue ty c .null).stats.distinctCount = c.stats.distinctCount) ∧
    (∀ (t : Table) (r : Row) (n : String) (sc : SchemaCol) (c : Column),
      TableWF t → sc ∈ t.schema → sc.name = n → mapGet t.columns n = some c →
      mapGet (insertRow t r).columns n = some (appendValue sc.type c (rowGet r n))) ∧
    (∀ (c : Column) (p : Pred) (i : ℕ),
      (c.nullBitmap.get? i).getD 0 ≠ 0 → predMatchAt c p i = false) ∧
    (∀ (t : Table) (c : Column) (p : Pred) (i : ℕ), i < t.rowCount →
      (c.nullBitmap.get? i).getD 0 ≠ 0 → (applyPredicate t c p).get? i = some false) :=
  ⟨fun ty c => ⟨(appendValue_null ty c).1, (appendValue_null ty c).2.1,
      (appendValue_null ty c).2.2.1, (appendValue_null ty c).2.2.2.1,
      (appendValue_null ty c).2.2.2.2.1, (appendValue_null ty c).2.2.2.2.2.1⟩,
   insertRow_col, predMatchAt_null, applyPredicate_null⟩

/-- Witness for C5: row 1 of the `v = [1, null, 3]` fixture is null on
`v`, and even the unrecognised operator `LIKE` (which matches every
non-null row) rejects it. -/
theorem spec_C5_null_handling_witness :
    (applyPredicate exNullTable exNullCol
      { column := "v", operator := "LIKE", value := .num (.fin 2) }).get? 1 =
        some false ∧
    predMatchAt exNullCol
      { column := "v", operator := "=", value := .num (.fin 2) } 1 = false :=
  ⟨spec_C5_null_handling.2.2.2 exNullTable exNullCol _ 1 (by decide) (by decide),
   spec_C5_null_handling.2.2.1 exNullCol _ 1 (by decide)⟩

/-! ## Comparator and stable-sort lemmas (C6) -/

theorem char_eq_of_toNat_eq {a b : Char} (h : a.toNat = b.toNat) : a = b := by
  apply Char.eq_of_val_eq
  apply UInt32.eq_of_toBitVec_eq
  apply BitVec.eq_of_toNat_eq
  exact h

theorem charListLt_asymm : ∀ {a b : List Char},
    charListLt a b = true → charListLt b a = false := by
  intro a
  induction a with
  | nil =>
      intro b h
      cases b with
      | nil => simp [charListLt] at h
      | cons y ys => simp [charListLt]
  | cons x xs ih =>
      intro b h
      cases b with
      | nil => simp [charListLt] at h
      | cons y ys =>
          unfold charListLt at h ⊢
          by_cases h1 : x.toNat < y.toNat
          · rw [if_neg (by omega), if_pos h1]
          · rw [if_neg h1] at h
            by_cases h2 : y.toNat < x.toNat
            · rw [if_pos h2] at h
              cases h
            · rw [if_neg h2] at h
              rw [if_neg h2, if_neg h1]
              exact ih h

theorem charListLt_trans : ∀ {a b c : List Char},
    charListLt a b = true → charListLt b c = true → charListLt a c = true := by
  intro a
  induction a with
  | nil =>
      intro b c h1 h2
      cases b with
      | nil => cases h1
      | cons y ys =>
          cases c with
          | nil => cases h2
          | cons z zs => simp [charListLt]
  | cons x xs ih =>
      intro b c h1 h2
      cases b with
      | nil => cases h1
      | cons y ys =>
          cases c with
          | nil => cases h2
          | cons z zs =>
              unfold charListLt at h1 h2 ⊢
              by_cases hxy : x.toNat < y.toNat
              · by_cases hyz : y.toNat < z.toNat
                · rw [if_pos (by omega)]
                · rw [if_neg hyz] at h2
                  by_cases hzy : z.toNat < y.toNat
                  · rw [if_pos hzy] at h2
                    cases h2
                  · rw [if_pos (by omega)]
              · rw [if_neg hxy] at h1
                by_cases hyx : y.toNat < x.toNat
                · rw [if_pos hyx] at h1
                  cases h1
                · rw [if_neg hyx] at h1
                  by_cases hyz : y.toNat < z.toNat
                  · rw [if_pos (by omega)]
                  · rw [if_neg hyz] at h2
                    by_cases hzy : z.toNat < y.toNat
                    · rw [if_pos hzy] at h2
                      cases h2
                    · rw [if_neg hzy] at h2
                      rw [if_neg (by omega), if_neg (by omega)]
                      exact ih h1 h2

theorem charListLt_false_cases : ∀ {a b : List Char}, charListLt a b = false →
    charListLt b a = true ∨ a = b := by
  intro a
  induction a with
  | nil =>
      intro b h
      cases b with
      | nil => exact Or.inr rfl
      | cons y ys => simp [charListLt] at h
  | cons x xs ih =>
      intro b h
      cases b with
      | nil => exact Or.inl (by simp [charListLt])
      | cons y ys =>
          unfold charListLt at h
          by_cases h1 : x.toNat < y.toNat
          · rw [if_pos h1] at h
            cases h
          · rw [if_neg h1] at h
            by_cases h2 : y.toNat < x.toNat
            · exact Or.inl (by unfold charListLt; rw [if_pos h2])
            · rw [if_neg h2] at h
              have hxy : x = y := char_eq_of_toNat_eq (by omega)
              rcases ih h with h3 | h3
              · exact Or.inl (by
                  unfold charListLt
                  rw [if_neg (by omega), if_neg (by omega)]
                  exact h3)
              · exact Or.inr (by rw [hxy, h3])

theorem charListLt_neg_trans {a b c : List Char}
    (h1 : charListLt b a = false) (h2 : charListLt c b = false) :
    charListLt c a = false := by
  cases hca : charListLt c a with
  | false => rfl
  | true =>
      exfalso
      rcases charListLt_false_cases h2 with hbc | hcb
      · rcases charListLt_false_cases h1 with hab | hba
        · have := charListLt_trans hab hbc
          have := charListLt_asymm this
          rw [hca] at this
          cases this
        · rw [hba] at hbc
          have := charListLt_asymm hbc
          rw [hca] at this
          cases this
      · rw [hcb] at hca
        rw [hca] at h1
        cases h1

theorem JsNum.ltAsymm {x y : JsNum} (h : JsNum.lt x y = true) :
    JsNum.lt y x = false := by
  cases x <;> cases y <;> simp_all [JsNum.lt]
  exact le_of_lt h

theorem jsLtAsymm {a b : JsVal} (h : jsLt a b = true) : jsLt b a = false := by
  cases a <;> cases b <;>
    simp only [jsLt, jsStrLt] at h ⊢ <;>
    first
      | exact charListLt_asymm h
      | exact JsNum.ltAsymm h

theorem cmpRows_le_zero_total (ob : OrderBy) (a b : Row) :
    cmpRows ob a b ≤ 0 ∨ cmpRows ob b a ≤ 0 := by
  unfold cmpRows jsGt
  by_cases h1 : jsLt (rowGet a ob.column) (rowGet b ob.column) = true
  · have h2 := jsLtAsymm h1
    by_cases hd : ob.direction = "ASC" <;> simp [h1, h2, hd]
  · by_cases h2 : jsLt (rowGet b ob.column) (rowGet a ob.column) = true
    · by_cases hd : ob.direction = "ASC" <;>
        simp [h1, h2, hd, Bool.not_eq_true]
    · by_cases hd : ob.direction = "ASC" <;>
        simp [h1, h2, hd, Bool.not_eq_true]

theorem cmpRows_trans_num (ob : OrderBy) (a b c : Row) (qa qb qc : ℚ)
    (ha : rowGet a ob.column = .num (.fin qa))
    (hb : rowGet b ob.column = .num (.fin qb))
    (hc : rowGet c ob.column = .num (.fin qc))
    (h1 : cmpRows ob a b ≤ 0) (h2 : cmpRows ob b c ≤ 0) : cmpRows ob a c ≤ 0 := by
  unfold cmpRows jsGt at h1 h2 ⊢
  rw [ha, hb] at h1
  rw [hb, hc] at h2
  rw [ha, hc]
  have e : ∀ x y : ℚ, jsLt (.num (.fin x)) (.num (.fin y)) = decide (x < y) :=
    fun _ _ => rfl
  simp only [e] at h1 h2 ⊢
  by_cases hd : ob.direction = "ASC" <;>
    simp only [hd, if_true, if_false, decide_eq_true_eq] at h1 h2 ⊢ <;>
    split_ifs at h1 h2 ⊢ <;>
    first | omega | linarith

theorem cmpRows_str_le_iff (ob : OrderBy) (a b : Row) (sa sb : String)
    (ha : rowGet a ob.column = .str sa)
    (hb : rowGet b ob.column = .str sb) :
    cmpRows ob a b ≤ 0 ↔
      (if ob.direction = "ASC"
        then charListLt sb.data sa.data
        else charListLt sa.data sb.data) = false := by
  unfold cmpRows jsGt
  rw [ha, hb]
  have e : ∀ x y : String, jsLt (.str x) (.str y) = charListLt x.data y.data :=
    fun _ _ => rfl
  simp only [e]
  cases hab : charListLt sa.data sb.data with
  | true =>
      have hba := charListLt_asymm hab
      by_cases hd : ob.direction = "ASC" <;> simp [hd, hab, hba]
  | false =>
      cases hba : charListLt sb.data sa.data with
      | true => by_cases hd : ob.direction = "ASC" <;> simp [hd, hab, hba]
      | false => by_cases hd : ob.direction = "ASC" <;> simp [hd, hab, hba]

theorem cmpRows_trans_str (ob : OrderBy) (a b c : Row) (sa sb sc : String)
    (ha : rowGet a ob.column = .str sa)
    (hb : rowGet b ob.column = .str sb)
    (hc : rowGet c ob.column = .str sc)
    (h1 : cmpRows ob a b ≤ 0) (h2 : cmpRows ob b c ≤ 0) : cmpRows ob a c ≤ 0 := by
  rw [cmpRows_str_le_iff ob a b sa sb ha hb] at h1
  rw [cmpRows_str_le_iff ob b c sb sc hb hc] at h2
  rw [cmpRows_str_le_iff ob a c sa sc ha hc]
  by_cases hd : ob.direction = "ASC"
  · rw [if_pos hd] at h1 h2 ⊢
    exact charListLt_neg_trans h1 h2
  · rw [if_neg hd] at h1 h2 ⊢
    exact charListLt_neg_trans h2 h1

theorem sortInsert_mem (cR : Row → Row → ℤ) (x : Row) (l : List Row) (z : Row) :
    z ∈ sortInsert cR x l ↔ z = x ∨ z ∈ l := by
  induction l with
  | nil => simp [sortInsert]
  | cons y ys ih =>
      unfold sortInsert
      split
      · simp [List.mem_cons]
        try tauto
      · simp [List.mem_cons, ih]
        try tauto

theorem sortInsert_perm (cR : Row → Row → ℤ) (x : Row) (l : List Row) :
    (sortInsert cR x l).Perm (x :: l) := by
  induction l with
  | nil => exact List.Perm.refl _
  | cons y ys ih =>
      unfold sortInsert
      split
      · exact List.Perm.refl _
      · exact (List.Perm.cons y ih).trans (List.Perm.swap x y ys)

theorem jsSort_perm (cR : Row → Row → ℤ) (l : List Row) : (jsSort cR l).Perm l := by
  induction l with
  | nil => exact List.Perm.refl _
  | cons x xs ih =>
      unfold jsSort
      exact (sortInsert_perm cR x (jsSort cR xs)).trans (List.Perm.cons x ih)

theorem sortInsert_pairwise (cR : Row → Row → ℤ) (P : Row → Prop) (x : Row)
    (l : List Row)
    (htot : ∀ a b, cR a b ≤ 0 ∨ cR b a ≤ 0)
    (htrans : ∀ a b c, P a → P b → P c → cR a b ≤ 0 → cR b c ≤ 0 → cR a c ≤ 0)
    (hPx : P x) (hPl : ∀ r ∈ l, P r)
    (hpair : l.Pairwise (fun a b => cR a b ≤ 0)) :
    (sortInsert cR x l).Pairwise (fun a b => cR a b ≤ 0) := by
  induction l with
  | nil => simp [sortInsert]
  | cons y ys ih =>
      unfold sortInsert
      by_cases hxy : cR x y ≤ 0
      · rw [if_pos hxy]
        refine List.Pairwise.cons ?_ hpair
        intro z hz
        rcases List.mem_cons.mp hz with rfl | hz
        · exact hxy
        · have hyz := (List.pairwise_cons.mp hpair).1 z hz
          exact htrans x y z hPx (hPl y (by simp)) (hPl z (by simp [hz])) hxy hyz
      · rw [if_neg hxy]
        have hyx : cR y x ≤ 0 := (htot x y).resolve_left hxy
        obtain ⟨hhead, htail⟩ := List.pairwise_cons.mp hpair
        refine List.Pairwise.cons ?_
          (ih (fun r hr => hPl r (by simp [hr])) htail)
        intro z hz
        rcases (sortInsert_mem cR x ys z).mp hz with rfl | hz
        · exact hyx
        · exact hhead z hz

theorem jsSort_pairwise (cR : Row → Row → ℤ) (P : Row → Prop) (l : List Row)
    (htot : ∀ a b, cR a b ≤ 0 ∨ cR b a ≤ 0)
    (htrans : ∀ a b c, P a → P b → P c → cR a b ≤ 0 → cR b c ≤ 0 → cR a c ≤ 0)
    (hP : ∀ r ∈ l, P r) :
    (jsSort cR l).Pairwise (fun a b => cR a b ≤ 0) := by
  induction l with
  | nil => simp [jsSort]
  | cons x xs ih =>
      unfold jsSort
      refine sortInsert_pairwise cR P x (jsSort cR xs) htot htrans
        (hP x (by simp)) ?_ (ih (fun r hr => hP r (by simp [hr])))
      intro r hr
      exact hP r (by simp [(jsSort_perm cR xs).mem_iff.mp hr])

/-! ## C6 -/

/-- C6 counterexample: executing
`SELECT * FROM t ORDER BY v DESC LIMIT 0` on rows with `v = [3,1,2]`
returns all three rows (sorted descending), not the "first 0 rows" the
claim demands for `k = 0`: `if (query.limit)` is falsy at `0` (see C9). -/
theorem spec_C6_limit_zero_counterexample :
    exC6LimitZeroData.length = 3 ∧
    exC6LimitZeroData ≠ [] ∧
    exC6LimitZeroData =
      [[("v", .num (.fin 3))], [("v", .num (.fin 2))], [("v", .num (.fin 1))]] :=
  ⟨by decide, by decide, by decide⟩

/-- C6 (corrected): for every executed query with an ORDER BY and a LIMIT
`k ≥ 1`, the result is exactly the first `k` rows of the stably sorted
data (`jsSort` is the ECMAScript-mandated stable sort of `applyOrderBy`,
inserting each row before its comparator-equals); the sorted data is a
permutation of the scanned data and — whenever the sort keys are
type-uniform, so the JS comparator is a total preorder — it is pairwise
ordered by the comparator in the requested direction. For `k = 0` the
claim fails: no truncation is applied (the counterexample; claim C9). -/
theorem spec_C6_orderby_limit :
    ∀ (s : Store) (q : Query) (ob : OrderBy) (k : ℕ) (raw : OpResult),
      q.orderBy = some ob → q.limit = some k → 1 ≤ k →
      runQueryCore s q = .ok raw →
      executeQuery s q =
        .ok { data := (applyOrderBy raw.data ob).take k, metadata := raw.metadata } ∧
      (applyOrderBy raw.data ob).Perm raw.data ∧
      (SortKeyUniform ob raw.data →
        (applyOrderBy raw.data ob).Pairwise (fun a b => cmpRows ob a b ≤ 0)) := by
  intro s q ob k raw hob hlim hk hrun
  refine ⟨?_, jsSort_perm _ _, ?_⟩
  · unfold executeQuery
    rw [hrun]
    dsimp only
    rw [hob, hlim]
    dsimp only
    rw [if_pos (by omega : k ≠ 0)]
  · intro huni
    rcases huni with hnum | hstr
    · refine jsSort_pairwise (cmpRows ob)
        (fun r => ∃ q0 : ℚ, rowGet r ob.column = .num (.fin q0)) raw.data
        (cmpRows_le_zero_total ob) ?_ hnum
      rintro a b c ⟨qa, ha⟩ ⟨qb, hb⟩ ⟨qc, hc⟩ h1 h2
      exact cmpRows_trans_num ob a b c qa qb qc ha hb hc h1 h2
    · refine jsSort_pairwise (cmpRows ob)
        (fun r => ∃ s0 : String, rowGet r ob.column = .str s0) raw.data
        (cmpRows_le_zero_total ob) ?_ hstr
      rintro a b c ⟨sa, ha⟩ ⟨sb, hb⟩ ⟨sc, hc⟩ h1 h2
      exact cmpRows_trans_str ob a b c sa sb sc ha hb hc h1 h2

/-- Witness for C6: the theorem applied to
`SELECT * FROM t ORDER BY v DESC LIMIT 2` on `v = [3,1,2]`, together with
the evaluated result: the row with `v = 3` then the row with `v = 2`. -/
theorem spec_C6_orderby_limit_witness :
    (executeQuery exNumS2 exC6Query =
      .ok { data := (applyOrderBy exC6Raw.data ⟨"v", "DESC"⟩).take 2
            metadata := exC6Raw.metadata } ∧
     (applyOrderBy exC6Raw.data ⟨"v", "DESC"⟩).Perm exC6Raw.data ∧
     (SortKeyUniform ⟨"v", "DESC"⟩ exC6Raw.data →
       (applyOrderBy exC6Raw.data ⟨"v", "DESC"⟩).Pairwise
         (fun a b => cmpRows ⟨"v", "DESC"⟩ a b ≤ 0))) ∧
    executeQuery exNumS2 exC6Query =
      .ok { data := [[("v", .num (.fin 3))], [("v", .num (.fin 2))]]
            metadata := .scanMeta 3 3 1 } ∧
    parseSql "SELECT * FROM t ORDER BY v DESC LIMIT 2" = .ok exC6Query :=
  ⟨spec_C6_orderby_limit exNumS2 exC6Query ⟨"v", "DESC"⟩ 2 exC6Raw rfl rfl
    (by omega) (by decide), by decide, by decide⟩

/-! ## Except plumbing lemmas (C4) -/

theorem except_bind_ok {β γ : Type} (b : β) (g : β → Except String γ) :
    ((Except.ok b : Except String β) >>= g) = g b := rfl

theorem except_bind_error {β γ : Type} (e : String) (g : β → Except String γ) :
    ((Except.error e : Except String β) >>= g) = .error e := rfl

theorem except_pure_eq_ok {β : Type} (b : β) :
    (pure b : Except String β) = .ok b := rfl

theorem mapM_ok_forall2 {α β : Type} (f : α → Except String β) :
    ∀ (l : List α) (out : List β), l.mapM f = .ok out →
      List.Forall₂ (fun a b => f a = .ok b) l out := by
  intro l
  induction l with
  | nil =>
      intro out h
      rw [List.mapM_nil] at h
      rw [except_pure_eq_ok] at h
      injection h with h1
      subst h1
      exact List.Forall₂.nil
  | cons a t ih =>
      intro out h
      rw [List.mapM_cons] at h
      cases hfa : f a with
      | error e =>
          rw [hfa, except_bind_error] at h
          cases h
      | ok b =>
          rw [hfa, except_bind_ok] at h
          cases hmt : t.mapM f with
          | error e =>
              rw [hmt, except_bind_error] at h
              cases h
          | ok bs =>
              rw [hmt, except_bind_ok, except_pure_eq_ok] at h
              injection h with h1
              subst h1
              exact List.Forall₂.cons hfa (ih bs hmt)

theorem mapM_ok_of_forall {α β : Type} (f : α → Except String β) :
    ∀ l : List α, (∀ a ∈ l, ∃ b, f a = .ok b) → ∃ out, l.mapM f = .ok out := by
  intro l
  induction l with
  | nil => intro _; exact ⟨[], rfl⟩
  | cons a t ih =>
      intro hall
      obtain ⟨b, hb⟩ := hall a (List.mem_cons_self a t)
      obtain ⟨bs, hbs⟩ := ih (fun x hx => hall x (List.mem_cons_of_mem a hx))
      refine ⟨b :: bs, ?_⟩
      rw [List.mapM_cons, hb, except_bind_ok, hbs, except_bind_ok,
        except_pure_eq_ok]

/-! ## First-seen deduplication lemmas (C4) -/

theorem firstSeenAux_nodup : ∀ (l seen : List JsVal),
    (firstSeenAux seen l).Nodup := by
  intro l
  induction l with
  | nil => intro seen; simp [firstSeenAux]
  | cons x xs ih =>
      intro seen
      unfold firstSeenAux
      by_cases hx : x ∈ seen
      · rw [if_pos hx]
        exact ih seen
      · rw [if_neg hx, List.nodup_cons]
        refine ⟨?_, ih (x :: seen)⟩
        intro hmem
        exact ((mem_firstSeenAux (x :: seen) xs x).mp hmem).2 (List.mem_cons_self x seen)

theorem firstSeenAux_concat : ∀ (l seen : List JsVal) (v : JsVal),
    firstSeenAux seen (l ++ [v]) =
      if v ∈ seen ∨ v ∈ l then firstSeenAux seen l
      else firstSeenAux seen l ++ [v] := by
  intro l
  induction l with
  | nil =>
      intro seen v
      simp only [List.nil_append, firstSeenAux]
      by_cases hv : v ∈ seen
      · rw [if_pos hv, if_pos (Or.inl hv)]
      · rw [if_neg hv, if_neg (by simp [hv])]
  | cons x xs ih =>
      intro seen v
      simp only [List.cons_append, firstSeenAux, List.append_eq]
      by_cases hx : x ∈ seen
      · rw [if_pos hx, if_pos hx, ih]
        by_cases hv : v ∈ seen ∨ v ∈ xs
        · have hv2 : v ∈ seen ∨ v ∈ x :: xs := by
            rcases hv with h | h
            · exact Or.inl h
            · exact Or.inr (List.mem_cons_of_mem x h)
          rw [if_pos hv, if_pos hv2]
        · have hv2 : ¬(v ∈ seen ∨ v ∈ x :: xs) := by
            rintro (h | h)
            · exact hv (Or.inl h)
            · rcases List.mem_cons.mp h with rfl | h2
              · exact hv (Or.inl hx)
              · exact hv (Or.inr h2)
          rw [if_neg hv, if_neg hv2]
      · rw [if_neg hx, if_neg hx, ih]
        by_cases hv : v ∈ x :: seen ∨ v ∈ xs
        · have hv2 : v ∈ seen ∨ v ∈ x :: xs := by
            rcases hv with h | h
            · rcases List.mem_cons.mp h with rfl | h2
              · exact Or.inr (List.mem_cons_self v xs)
              · exact Or.inl h2
            · exact Or.inr (List.mem_cons_of_mem x h)
          rw [if_pos hv, if_pos hv2]
        · have hv2 : ¬(v ∈ seen ∨ v ∈ x :: xs) := by
            rintro (h | h)
            · exact hv (Or.inl (List.mem_cons_of_mem x h))
            · rcases List.mem_cons.mp h with rfl | h2
              · exact hv (Or.inl (List.mem_cons_self v seen))
              · exact hv (Or.inr h2)
          rw [if_neg hv, if_neg hv2]
          rfl

theorem firstSeen_concat (l : List JsVal) (v : JsVal) :
    firstSeen (l ++ [v]) =
      if v ∈ l then firstSeen l else firstSeen l ++ [v] := by
  unfold firstSeen
  rw [firstSeenAux_concat]
  by_cases hv : v ∈ l
  · rw [if_pos (Or.inr hv), if_pos hv]
  · rw [if_neg (by simp [hv]), if_neg hv]

/-! ## Grouping lemmas (C4) -/

theorem groupInsert_keys : ∀ (gs : List (JsVal × List Row)) (k : JsVal) (r : Row),
    (groupInsert gs k r).map Prod.fst =
      if k ∈ gs.map Prod.fst then gs.map Prod.fst
      else gs.map Prod.fst ++ [k] := by
  intro gs
  induction gs with
  | nil => intro k r; simp [groupInsert]
  | cons hd t ih =>
      intro k r
      obtain ⟨a, ars⟩ := hd
      simp only [groupInsert]
      by_cases h : a = k
      · subst h
        rw [if_pos rfl, if_pos (by simp)]
        rfl
      · rw [if_neg h]
        simp only [List.map_cons, ih]
        by_cases hk : k ∈ t.map Prod.fst
        · rw [if_pos hk, if_pos (by simp [hk])]
        · have hnotin : k ∉ a :: t.map Prod.fst := by
            simp only [List.mem_cons]
            rintro (rfl | hh)
            · exact h rfl
            · exact hk hh
          rw [if_neg hk, if_neg hnotin]
          rfl

theorem groupInsert_snd : ∀ (gs : List (JsVal × List Row)) (k : JsVal) (r : Row),
    (gs.map Prod.fst).Nodup →
    ∀ k' rs', (k', rs') ∈ groupInsert gs k r →
      (k' = k ∧ k ∉ gs.map Prod.fst ∧ rs' = [r]) ∨
      (k' = k ∧ ∃ rs, (k, rs) ∈ gs ∧ rs' = rs ++ [r]) ∨
      (k' ≠ k ∧ (k', rs') ∈ gs) := by
  intro gs
  induction gs with
  | nil =>
      intro k r _ k' rs' hmem
      simp only [groupInsert, List.mem_singleton, Prod.mk.injEq] at hmem
      exact Or.inl ⟨hmem.1, by simp, hmem.2⟩
  | cons hd t ih =>
      intro k r hnd k' rs' hmem
      obtain ⟨a, ars⟩ := hd
      rw [List.map_cons, List.nodup_cons] at hnd
      obtain ⟨hnda, hndt⟩ := hnd
      simp only [groupInsert] at hmem
      by_cases h : a = k
      · subst h
        rw [if_pos rfl] at hmem
        rcases List.mem_cons.mp hmem with heq | hmemt
        · injection heq with h1 h2
          exact Or.inr (Or.inl ⟨h1, ars, List.mem_cons_self _ _, h2⟩)
        · have hk' : k' ∈ t.map Prod.fst := List.mem_map_of_mem Prod.fst hmemt
          have hne : k' ≠ a := fun hh => hnda (hh ▸ hk')
          exact Or.inr (Or.inr ⟨hne, List.mem_cons_of_mem _ hmemt⟩)
      · rw [if_neg h] at hmem
        rcases List.mem_cons.mp hmem with heq | hmemt
        · injection heq with h1 h2
          subst h1
          subst h2
          exact Or.inr (Or.inr ⟨h, List.mem_cons_self _ _⟩)
        · rcases ih k r hndt k' rs' hmemt with ⟨h1, h2, h3⟩ | ⟨h1, rs, hrs, h3⟩ | ⟨h1, h2⟩
          · refine Or.inl ⟨h1, ?_, h3⟩
            simp only [List.map_cons, List.mem_cons]
            rintro (hh | hh)
            · exact h hh.symm
            · exact h2 hh
          · exact Or.inr (Or.inl ⟨h1, rs, List.mem_cons_of_mem _ hrs, h3⟩)
          · exact Or.inr (Or.inr ⟨h1, List.mem_cons_of_mem _ h2⟩)

theorem groupRows_concat (data : List Row) (g : String) (r : Row) :
    groupRows (data ++ [r]) g = groupInsert (groupRows data g) (rowGet r g) r := by
  unfold groupRows
  rw [List.foldl_append]
  rfl

theorem groupRows_spec (g : String) : ∀ data : List Row,
    (groupRows data g).map Prod.fst = firstSeen (data.map (fun r => rowGet r g)) ∧
    ∀ k rs, (k, rs) ∈ groupRows data g →
      rs = data.filter (fun r => rowGet r g == k) := by
  intro data
  induction data using List.reverseRecOn with
  | nil =>
      constructor
      · rfl
      · intro k rs h
        simp [groupRows] at h
  | append_singleton data r ih =>
      obtain ⟨ihk, ihm⟩ := ih
      have hnd : ((groupRows data g).map Prod.fst).Nodup := by
        rw [ihk]
        exact firstSeenAux_nodup _ []
      constructor
      · rw [groupRows_concat, groupInsert_keys, ihk]
        simp only [List.map_append, List.map_cons, List.map_nil]
        rw [firstSeen_concat]
        by_cases hk : rowGet r g ∈ data.map (fun r => rowGet r g)
        · rw [if_pos ((mem_firstSeen _ _).mpr hk), if_pos hk]
        · rw [if_neg (fun hh => hk ((mem_firstSeen _ _).mp hh)), if_neg hk]
      · intro k rs hmem
        rw [groupRows_concat] at hmem
        rcases groupInsert_snd _ _ _ hnd k rs hmem with
          ⟨rfl, h2, rfl⟩ | ⟨rfl, rs0, hrs0, rfl⟩ | ⟨hne, hmem0⟩
        · have hfilter : data.filter (fun r' => rowGet r' g == rowGet r g) = [] := by
            rw [List.filter_eq_nil]
            intro a ha hpa
            rw [beq_iff_eq] at hpa
            have hin : rowGet a g ∈ (groupRows data g).map Prod.fst := by
              rw [ihk, mem_firstSeen]
              exact List.mem_map_of_mem _ ha
            exact h2 (hpa ▸ hin)
          rw [List.filter_append, hfilter]
          simp
        · have h0 := ihm _ _ hrs0
          rw [List.filter_append, ← h0]
          simp
        · have h0 := ihm _ _ hmem0
          rw [List.filter_append, ← h0]
          have hb : (rowGet r g == k) = false := by
            rw [beq_eq_false_iff_ne]
            exact fun hh => hne hh.symm
          simp [List.filter, hb]

/-! ## Per-function aggregate semantics (C4) -/

theorem foldl_jsAdd_fin : ∀ (qs : List ℚ) (a : ℚ),
    (qs.map (fun q => JsVal.num (.fin q))).foldl jsAdd (.num (.fin a)) =
      .num (.fin (a + qs.sum)) := by
  intro qs
  induction qs with
  | nil => intro a; simp
  | cons q t ih =>
      intro a
      simp only [List.map_cons, List.foldl_cons]
      rw [show jsAdd (.num (.fin a)) (.num (.fin q)) = .num (.fin (a + q)) from rfl]
      rw [ih, List.sum_cons, ← add_assoc]

theorem foldl_min2_fin : ∀ (qs : List ℚ) (a : ℚ),
    (qs.map (fun q => JsVal.num (.fin q))).foldl
        (fun x v => JsNum.min2 x v.toNumber) (.fin a) =
      .fin (qs.foldl min a) := by
  intro qs
  induction qs with
  | nil => intro a; rfl
  | cons q t ih =>
      intro a
      simp only [List.map_cons, List.foldl_cons]
      have h1 : JsNum.min2 (.fin a) ((JsVal.num (.fin q)).toNumber) = .fin (min a q) := by
        show JsNum.min2 (.fin a) (.fin q) = .fin (min a q)
        by_cases h : a < q
        · have hlt : JsNum.lt (.fin a) (.fin q) = true := by simp [JsNum.lt, h]
          simp [JsNum.min2, JsNum.isNan, hlt, min_eq_left (le_of_lt h)]
        · have hlt : JsNum.lt (.fin a) (.fin q) = false := by simp [JsNum.lt, h]
          simp [JsNum.min2, JsNum.isNan, hlt, min_eq_right (le_of_not_lt h)]
      rw [h1, ih]

theorem foldl_max2_fin : ∀ (qs : List ℚ) (a : ℚ),
    (qs.map (fun q => JsVal.num (.fin q))).foldl
        (fun x v => JsNum.max2 x v.toNumber) (.fin a) =
      .fin (qs.foldl max a) := by
  intro qs
  induction qs with
  | nil => intro a; rfl
  | cons q t ih =>
      intro a
      simp only [List.map_cons, List.foldl_cons]
      have h1 : JsNum.max2 (.fin a) ((JsVal.num (.fin q)).toNumber) = .fin (max a q) := by
        show JsNum.max2 (.fin a) (.fin q) = .fin (max a q)
        by_cases h : a < q
        · have hlt : JsNum.lt (.fin a) (.fin q) = true := by simp [JsNum.lt, h]
          simp [JsNum.max2, JsNum.isNan, hlt, max_eq_right (le_of_lt h)]
        · have hlt : JsNum.lt (.fin a) (.fin q) = false := by simp [JsNum.lt, h]
          simp [JsNum.max2, JsNum.isNan, hlt, max_eq_left (le_of_not_lt h)]
      rw [h1, ih]

theorem foldl_min_mem : ∀ (qs : List ℚ) (a : ℚ),
    (qs.foldl min a = a ∨ qs.foldl min a ∈ qs) ∧
    qs.foldl min a ≤ a ∧ ∀ q ∈ qs, qs.foldl min a ≤ q := by
  intro qs
  induction qs with
  | nil => intro a; exact ⟨Or.inl rfl, le_refl a, by simp⟩
  | cons q t ih =>
      intro a
      simp only [List.foldl_cons]
      obtain ⟨hmem, hle, hall⟩ := ih (min a q)
      refine ⟨?_, hle.trans (min_le_left a q), ?_⟩
      · rcases hmem with h | h
        · rcases min_cases a q with ⟨he, _⟩ | ⟨he, _⟩
          · exact Or.inl (h.trans he)
          · exact Or.inr (by simp [h.trans he])
        · exact Or.inr (List.mem_cons_of_mem _ h)
      · intro x hx
        rcases List.mem_cons.mp hx with rfl | hx2
        · exact hle.trans (min_le_right a x)
        · exact hall x hx2

theorem foldl_max_mem : ∀ (qs : List ℚ) (a : ℚ),
    (qs.foldl max a = a ∨ qs.foldl max a ∈ qs) ∧
    a ≤ qs.foldl max a ∧ ∀ q ∈ qs, q ≤ qs.foldl max a := by
  intro qs
  induction qs with
  | nil => intro a; exact ⟨Or.inl rfl, le_refl a, by simp⟩
  | cons q t ih =>
      intro a
      simp only [List.foldl_cons]
      obtain ⟨hmem, hle, hall⟩ := ih (max a q)
      refine ⟨?_, (le_max_left a q).trans hle, ?_⟩
      · rcases hmem with h | h
        · rcases max_cases a q with ⟨he, _⟩ | ⟨he, _⟩
          · exact Or.inl (h.trans he)
          · exact Or.inr (by simp [h.trans he])
        · exact Or.inr (List.mem_cons_of_mem _ h)
      · intro x hx
        rcases List.mem_cons.mp hx with rfl | hx2
        · exact (le_max_right a x).trans hle
        · exact hall x hx2

theorem computeAggregate_count (rows : List Row) (col func : String)
    (hf : jsToUpper func = "COUNT") :
    computeAggregate rows col func = .ok (.num (.fin
      ((if col = "*" then rows.length
        else ((rows.map (fun r => rowGet r col)).filter
          (fun v => v ≠ .null)).length : ℕ) : ℚ))) := by
  unfold computeAggregate
  dsimp only
  rw [hf, if_pos rfl]

theorem computeAggregate_sum (rows : List Row) (col func : String) (qs : List ℚ)
    (hf : jsToUpper func = "SUM")
    (hv : (rows.map (fun r => rowGet r col)).filter (fun v => v ≠ .null)
        = qs.map (fun q => JsVal.num (.fin q))) :
    computeAggregate rows col func = .ok (.num (.fin qs.sum)) := by
  unfold computeAggregate
  dsimp only
  rw [hv, hf, if_neg (by decide), if_pos rfl, foldl_jsAdd_fin, zero_add]

theorem computeAggregate_avg (rows : List Row) (col func : String) (qs : List ℚ)
    (hf : jsToUpper func = "AVG")
    (hv : (rows.map (fun r => rowGet r col)).filter (fun v => v ≠ .null)
        = qs.map (fun q => JsVal.num (.fin q))) :
    computeAggregate rows col func =
      .ok (.num (if qs = [] then .nan else .fin (qs.sum / (qs.length : ℚ)))) := by
  unfold computeAggregate
  dsimp only
  rw [hv, hf, if_neg (by decide), if_neg (by decide), if_pos rfl,
    foldl_jsAdd_fin, zero_add, List.length_map]
  simp only [JsVal.toNumber]
  by_cases hq : qs = []
  · subst hq
    norm_num [JsNum.div]
  · rw [if_neg hq]
    have hlen : ((qs.length : ℕ) : ℚ) ≠ 0 :=
      Nat.cast_ne_zero.mpr (fun h => hq (List.length_eq_zero.mp h))
    simp [JsNum.div, hlen]

theorem computeAggregate_min (rows : List Row) (col func : String)
    (q0 : ℚ) (qt : List ℚ)
    (hf : jsToUpper func = "MIN")
    (hv : (rows.map (fun r => rowGet r col)).filter (fun v => v ≠ .null)
        = (q0 :: qt).map (fun q => JsVal.num (.fin q))) :
    ∃ m, computeAggregate rows col func = .ok (.num (.fin m)) ∧
      m ∈ q0 :: qt ∧ ∀ q ∈ q0 :: qt, m ≤ q := by
  unfold computeAggregate
  dsimp only
  rw [hv, hf, if_neg (by decide), if_neg (by decide), if_neg (by decide),
    if_pos rfl, List.map_cons, List.foldl_cons,
    show JsNum.min2 .inf ((JsVal.num (.fin q0)).toNumber) = .fin q0 from rfl,
    foldl_min2_fin]
  obtain ⟨hmem, hle, hall⟩ := foldl_min_mem qt q0
  refine ⟨qt.foldl min q0, rfl, ?_, ?_⟩
  · rcases hmem with h | h
    · rw [h]
      exact List.mem_cons_self _ _
    · exact List.mem_cons_of_mem _ h
  · intro q hq
    rcases List.mem_cons.mp hq with rfl | h
    · exact hle
    · exact hall q h

theorem computeAggregate_max (rows : List Row) (col func : String)
    (q0 : ℚ) (qt : List ℚ)
    (hf : jsToUpper func = "MAX")
    (hv : (rows.map (fun r => rowGet r col)).filter (fun v => v ≠ .null)
        = (q0 :: qt).map (fun q => JsVal.num (.fin q))) :
    ∃ m, computeAggregate rows col func = .ok (.num (.fin m)) ∧
      m ∈ q0 :: qt ∧ ∀ q ∈ q0 :: qt, q ≤ m := by
  unfold computeAggregate
  dsimp only
  rw [hv, hf, if_neg (by decide), if_neg (by decide), if_neg (by decide),
    if_neg (by decide), if_pos rfl, List.map_cons, List.foldl_cons,
    show JsNum.max2 .negInf ((JsVal.num (.fin q0)).toNumber) = .fin q0 from rfl,
    foldl_max2_fin]
  obtain ⟨hmem, hle, hall⟩ := foldl_max_mem qt q0
  refine ⟨qt.foldl max q0, rfl, ?_, ?_⟩
  · rcases hmem with h | h
    · rw [h]
      exact List.mem_cons_self _ _
    · exact List.mem_cons_of_mem _ h
  · intro q hq
    rcases List.mem_cons.mp hq with rfl | h
    · exact hle
    · exact hall q h

theorem computeAggregate_ok_of_valid (rows : List Row) (col func : String)
    (h : jsToUpper func ∈ (["COUNT", "SUM", "AVG", "MIN", "MAX"] : List String)) :
    ∃ v, computeAggregate rows col func = .ok v := by
  unfold computeAggregate
  dsimp only
  simp only [List.mem_cons, List.not_mem_nil, or_false] at h
  rcases h with h | h | h | h | h
  · rw [h, if_pos rfl]
    exact ⟨_, rfl⟩
  · rw [h, if_neg (by decide), if_pos rfl]
    exact ⟨_, rfl⟩
  · rw [h, if_neg (by decide), if_neg (by decide), if_pos rfl]
    exact ⟨_, rfl⟩
  · rw [h, if_neg (by decide), if_neg (by decide), if_neg (by decide), if_pos rfl]
    exact ⟨_, rfl⟩
  · rw [h, if_neg (by decide), if_neg (by decide), if_neg (by decide),
      if_neg (by decide), if_pos rfl]
    exact ⟨_, rfl⟩

theorem groupResultRow_ok (g : String) (aggs : List Agg) (kg : JsVal × List Row)
    (row : Row) (h : groupResultRow g aggs kg = .ok row) :
    ∃ vals, row = (g, kg.1) :: vals ∧
      List.Forall₂ (fun agg av =>
        ∃ v, computeAggregate kg.2 agg.column agg.function = .ok v ∧
          av = (agg.aliasName.getD agg.function, v)) aggs vals := by
  unfold groupResultRow at h
  cases hm : aggs.mapM (fun agg => do
      let v ← computeAggregate kg.2 agg.column agg.function
      pure (agg.aliasName.getD agg.function, v)) with
  | error e =>
      rw [hm, except_bind_error] at h
      cases h
  | ok vals =>
      rw [hm, except_bind_ok, except_pure_eq_ok] at h
      injection h with h1
      subst h1
      refine ⟨vals, rfl, ?_⟩
      refine (mapM_ok_forall2 _ aggs vals hm).imp ?_
      intro agg av hf
      cases hv : computeAggregate kg.2 agg.column agg.function with
      | error e =>
          rw [hv, except_bind_error] at hf
          cases hf
      | ok v =>
          rw [hv, except_bind_ok, except_pure_eq_ok] at hf
          injection hf with h2
          exact ⟨v, rfl, h2.symm⟩

theorem groupResultRow_ok_of_valid (g : String) (aggs : List Agg)
    (kg : JsVal × List Row)
    (h : ∀ agg ∈ aggs, jsToUpper agg.function ∈
      (["COUNT", "SUM", "AVG", "MIN", "MAX"] : List String)) :
    ∃ row, groupResultRow g aggs kg = .ok row := by
  obtain ⟨vals, hvals⟩ := mapM_ok_of_forall
    (fun agg => do
      let v ← computeAggregate kg.2 agg.column agg.function
      pure (agg.aliasName.getD agg.function, v)) aggs
    (fun agg ha => by
      obtain ⟨v, hv⟩ := computeAggregate_ok_of_valid kg.2 agg.column agg.function (h agg ha)
      exact ⟨(agg.aliasName.getD agg.function, v), by
        dsimp only
        rw [hv, except_bind_ok, except_pure_eq_ok]⟩)
  refine ⟨(g, kg.1) :: vals, ?_⟩
  unfold groupResultRow
  rw [hvals, except_bind_ok, except_pure_eq_ok]

theorem aggregate_groupBy_ok (s s1 : Store) (tn g : String) (aggs : List Agg)
    (p : Option Pred) (scanRes : OpResult) (results : List Row)
    (hs : scan s tn none p = (.ok scanRes, s1))
    (hm : (groupRows scanRes.data g).mapM (groupResultRow g aggs) = .ok results) :
    aggregate s tn aggs (some g) p =
      (.ok { data := results, metadata := .aggMeta results.length }, s1) := by
  obtain ⟨t, ht⟩ : ∃ t, mapGet s.tables tn = some t := by
    cases hmg : mapGet s.tables tn with
    | none =>
        unfold scan at hs
        rw [hmg] at hs
        exact absurd (congrArg Prod.fst hs) (by simp)
    | some t => exact ⟨t, rfl⟩
  unfold aggregate
  rw [ht, hs]
  dsimp only
  rw [hm]

/-! ## C4 -/

/-- C4 counterexample: aggregating `MIN(s)` over a string column whose only
(non-null) group value is `"a"` returns `NaN` — `Math.min` coerces its
arguments via `ToNumber` — not the natural-order extremum `"a"` required by
the claim. -/
theorem spec_C4_counterexample :
    (aggregate exMinS2 "t" [⟨"MIN", "s", none⟩] (some "d") none).1 =
      .ok { data := [[("d", .str "X"), ("MIN", .num .nan)]]
            metadata := .aggMeta 1 } ∧
    ((([[("d", .str "X"), ("s", .str "a")]] : List Row).map
        (fun r => rowGet r "s")).filter (fun v => v ≠ .null) = [.str "a"]) ∧
    JsVal.num .nan ≠ .str "a" :=
  ⟨by decide, by decide, by decide⟩

/-- C4 (corrected): for every `aggregate` call with a GROUP BY column over a
successful scan: (1) there is one group per distinct key value, in
first-occurrence order; (2) each group collects exactly the scanned rows
bearing its key, in scan order; (3) when every per-group row computes, the
call emits exactly one result row per group, in group order, shaped as the
group key followed by one field per aggregate (named `alias || function`)
holding `computeAggregate` of the group's rows; (4) the five supported
functions always compute; (5) `COUNT(*)` counts all rows of the group
including nulls while `COUNT(col)` counts only non-null values; (6) over
numeric non-null values `SUM` adds them and `AVG` divides the sum by their
count (`NaN` for zero non-null values); (7) over a nonempty list of numeric
non-null values `MIN`/`MAX` return an extremum of the values — but, per the
counterexample, over non-numeric values `MIN`/`MAX` coerce via `ToNumber`
and generally return `NaN`, not the natural-order extrema the original
claim states. -/
theorem spec_C4_aggregate_correctness
    (s s1 : Store) (tn g : String) (aggs : List Agg) (p : Option Pred)
    (scanRes : OpResult)
    (hs : scan s tn none p = (.ok scanRes, s1)) :
    ((groupRows scanRes.data g).map Prod.fst
      = firstSeen (scanRes.data.map (fun r => rowGet r g))) ∧
    (∀ k rs, (k, rs) ∈ groupRows scanRes.data g →
      rs = scanRes.data.filter (fun r => rowGet r g == k)) ∧
    (∀ results, (groupRows scanRes.data g).mapM (groupResultRow g aggs) = .ok results →
      aggregate s tn aggs (some g) p =
        (.ok { data := results, metadata := .aggMeta results.length }, s1) ∧
      List.Forall₂ (fun kg row => ∃ vals, row = (g, kg.1) :: vals ∧
        List.Forall₂ (fun agg av =>
          ∃ v, computeAggregate kg.2 agg.column agg.function = .ok v ∧
            av = (agg.aliasName.getD agg.function, v)) aggs vals)
        (groupRows scanRes.data g) results) ∧
    ((∀ agg ∈ aggs, jsToUpper agg.function ∈
        (["COUNT", "SUM", "AVG", "MIN", "MAX"] : List String)) →
      ∃ results, (groupRows scanRes.data g).mapM (groupResultRow g aggs) = .ok results) ∧
    (∀ (rows : List Row) (col func : String), jsToUpper func = "COUNT" →
      computeAggregate rows col func = .ok (.num (.fin
        ((if col = "*" then rows.length
          else ((rows.map (fun r => rowGet r col)).filter
            (fun v => v ≠ .null)).length : ℕ) : ℚ)))) ∧
    (∀ (rows : List Row) (col func : String) (qs : List ℚ),
      (rows.map (fun r => rowGet r col)).filter (fun v => v ≠ .null)
        = qs.map (fun q => JsVal.num (.fin q)) →
      (jsToUpper func = "SUM" →
        computeAggregate rows col func = .ok (.num (.fin qs.sum))) ∧
      (jsToUpper func = "AVG" → computeAggregate rows col func =
        .ok (.num (if qs = [] then .nan else .fin (qs.sum / (qs.length : ℚ)))))) ∧
    (∀ (rows : List Row) (col func : String) (qs : List ℚ),
      (rows.map (fun r => rowGet r col)).filter (fun v => v ≠ .null)
        = qs.map (fun q => JsVal.num (.fin q)) →
      qs ≠ [] →
      (jsToUpper func = "MIN" →
        ∃ m, computeAggregate rows col func = .ok (.num (.fin m)) ∧
          m ∈ qs ∧ ∀ q ∈ qs, m ≤ q) ∧
      (jsToUpper func = "MAX" →
        ∃ m, computeAggregate rows col func = .ok (.num (.fin m)) ∧
          m ∈ qs ∧ ∀ q ∈ qs, q ≤ m)) := by
  refine ⟨(groupRows_spec g scanRes.data).1, (groupRows_spec g scanRes.data).2,
    ?_, ?_, ?_, ?_, ?_⟩
  · intro results hm
    refine ⟨aggregate_groupBy_ok s s1 tn g aggs p scanRes results hs hm, ?_⟩
    exact (mapM_ok_forall2 _ _ _ hm).imp
      (fun kg row hrow => groupResultRow_ok g aggs kg row hrow)
  · intro hvalid
    exact mapM_ok_of_forall _ _
      (fun kg _ => groupResultRow_ok_of_valid g aggs kg hvalid)
  · intro rows col func hf
    exact computeAggregate_count rows col func hf
  · intro rows col func qs hv
    exact ⟨fun hf => computeAggregate_sum rows col func qs hf hv,
           fun hf => computeAggregate_avg rows col func qs hf hv⟩
  · intro rows col func qs hv hne
    obtain ⟨q0, qt, rfl⟩ : ∃ q0 qt, qs = q0 :: qt := by
      cases qs with
      | nil => exact absurd rfl hne
      | cons a t => exact ⟨a, t, rfl⟩
    exact ⟨fun hf => computeAggregate_min rows col func q0 qt hf hv,
           fun hf => computeAggregate_max rows col func q0 qt hf hv⟩

/-- Witness for C4: the theorem applied to the claim's own example —
`GROUP BY d, SUM(v)` over rows `d/v = X/10, X/20, Y/5` — together with the
evaluated end-to-end result `{d:X, SUM:30}` then `{d:Y, SUM:5}`. -/
theorem spec_C4_aggregate_correctness_witness :
    scan exAggS2 "t" none none = (.ok exAggScanRes, exAggS2) ∧
    aggregate exAggS2 "t" [⟨"SUM", "v", none⟩] (some "d") none =
      (.ok { data := [[("d", .str "X"), ("SUM", .num (.fin 30))],
                      [("d", .str "Y"), ("SUM", .num (.fin 5))]]
             metadata := .aggMeta 2 }, exAggS2) := by
  have hs : scan exAggS2 "t" none none = (.ok exAggScanRes, exAggS2) :=
    Prod.ext_iff.mpr ⟨by decide, scan_store_unchanged _ _ _ _⟩
  obtain ⟨-, -, hemit, -, -, hsum, -⟩ :=
    spec_C4_aggregate_correctness exAggS2 exAggS2 "t" "d"
      [⟨"SUM", "v", none⟩] none exAggScanRes hs
  have hX : computeAggregate
      [[("d", .str "X"), ("v", .num (.fin 10))],
       [("d", .str "X"), ("v", .num (.fin 20))]] "v" "SUM"
      = .ok (.num (.fin 30)) := by
    have h := (hsum [[("d", .str "X"), ("v", .num (.fin 10))],
       [("d", .str "X"), ("v", .num (.fin 20))]] "v" "SUM" [10, 20] (by decide)).1
      (by decide)
    rw [show ([10, 20] : List ℚ).sum = 30 by norm_num] at h
    exact h
  have hY : computeAggregate
      [[("d", .str "Y"), ("v", .num (.fin 5))]] "v" "SUM"
      = .ok (.num (.fin 5)) := by
    have h := (hsum [[("d", .str "Y"), ("v", .num (.fin 5))]] "v" "SUM" [5]
      (by decide)).1 (by decide)
    rw [show ([5] : List ℚ).sum = 5 by norm_num] at h
    exact h
  have hrowX : groupResultRow "d" [⟨"SUM", "v", none⟩]
      (.str "X", [[("d", .str "X"), ("v", .num (.fin 10))],
                  [("d", .str "X"), ("v", .num (.fin 20))]])
      = .ok [("d", .str "X"), ("SUM", .num (.fin 30))] := by
    unfold groupResultRow
    rw [List.mapM_cons]
    dsimp only
    rw [hX, except_bind_ok, List.mapM_nil]
    rfl
  have hrowY : groupResultRow "d" [⟨"SUM", "v", none⟩]
      (.str "Y", [[("d", .str "Y"), ("v", .num (.fin 5))]])
      = .ok [("d", .str "Y"), ("SUM", .num (.fin 5))] := by
    unfold groupResultRow
    rw [List.mapM_cons]
    dsimp only
    rw [hY, except_bind_ok, List.mapM_nil]
    rfl
  have hg : groupRows exAggScanRes.data "d" =
      [(.str "X", [[("d", .str "X"), ("v", .num (.fin 10))],
                   [("d", .str "X"), ("v", .num (.fin 20))]]),
       (.str "Y", [[("d", .str "Y"), ("v", .num (.fin 5))]])] := by decide
  have hmapm : (groupRows exAggScanRes.data "d").mapM
      (groupResultRow "d" [⟨"SUM", "v", none⟩])
      = .ok [[("d", .str "X"), ("SUM", .num (.fin 30))],
             [("d", .str "Y"), ("SUM", .num (.fin 5))]] := by
    rw [hg, List.mapM_cons, hrowX, except_bind_ok, List.mapM_cons, hrowY,
      except_bind_ok, List.mapM_nil]
    rfl
  exact ⟨hs, (hemit _ hmapm).1⟩

/-! ## C9 -/

theorem executeQuery_limit_zero (s : Store) (q : Query) (h : q.limit = some 0) :
    executeQuery s q = executeQuery s { q with limit := none } := by
  have hcore : runQueryCore s { q with limit := none } = runQueryCore s q := rfl
  unfold executeQuery
  rw [hcore]
  cases hr : runQueryCore s q with
  | error e => rfl
  | ok result =>
      dsimp only
      rw [h]
      simp

theorem plan_limit_zero_no_limit_step (q : Query) (h : q.limit = some 0) :
    ∀ stp ∈ createExecutionPlan q, stp.operation ≠ "Limit" := by
  obtain ⟨ty, tb, cols, wp, gb, ob, lim, aggs⟩ := q
  simp only at h
  subst h
  intro stp hmem hop
  cases wp <;> cases ob <;> cases aggs <;> cases gb <;>
    simp [createExecutionPlan, List.mem_append] at hmem <;>
    rcases hmem with rfl | rfl | rfl | rfl | rfl <;> simp at hop

/-- C9 (confirmed): a parsed `LIMIT 0` is treated exactly as an absent
LIMIT clause — `if (query.limit)` is JS-falsy at `0` — so execution
applies no truncation (it coincides with executing the query with no
limit, hence returns every matching row), the execution plan contains no
Limit step, and a query text ending in `LIMIT 0` indeed parses to a limit
of `0` (shown for `SELECT * FROM t LIMIT 0`). -/
theorem spec_C9_limit_zero_ignored :
    (∀ (s : Store) (q : Query), q.limit = some 0 →
      executeQuery s q = executeQuery s { q with limit := none }) ∧
    (∀ q : Query, q.limit = some 0 →
      ∀ stp ∈ createExecutionPlan q, stp.operation ≠ "Limit") ∧
    parseSql "SELECT * FROM t LIMIT 0" =
      .ok { type := "SELECT", table := "t", columns := ["*"], wherePred := none
            groupBy := none, orderBy := none, limit := some 0, aggregates := [] } :=
  ⟨executeQuery_limit_zero, plan_limit_zero_no_limit_step, by decide⟩

/-- Witness for C9: the universal parts applied to the query parsed from
`SELECT * FROM t LIMIT 0` against the `v = [3,1,2]` fixture store; with
the limit of `0` the query returns all three rows. -/
theorem spec_C9_limit_zero_ignored_witness :
    (let q : Query :=
      { type := "SELECT", table := "t", columns := ["*"], wherePred := none
        groupBy := none, orderBy := none, limit := some 0, aggregates := [] }
     executeQuery exNumS2 q = executeQuery exNumS2 { q with limit := none } ∧
     (∀ stp ∈ createExecutionPlan q, stp.operation ≠ "Limit") ∧
     (executeQuery exNumS2 q).map (fun r => r.data.length) = .ok 3) :=
  ⟨spec_C9_limit_zero_ignored.1 exNumS2 _ rfl,
   spec_C9_limit_zero_ignored.2.1 _ rfl, by decide⟩

/-! ## C8 -/

theorem execute_appends_one_record (st : QueryEngineState) (sql : String) :
    ((execute st sql).2).queryHistory.length = st.queryHistory.length + 1 := by
  unfold execute
  cases executeOutcome st sql with
  | ok pr => simp
  | error e => simp

theorem execute_failure_appends_error_record (st : QueryEngineState) (sql e : String)
    (h : (execute st sql).1 = .error e) :
    ((execute st sql).2).queryHistory =
      st.queryHistory ++
        [{ sql := sql, rowsAffected := none, success := false
           error := some e, executionPlan := none }] := by
  unfold execute at h ⊢
  cases hout : executeOutcome st sql with
  | ok pr =>
      rw [hout] at h
      simp at h
  | error e0 =>
      rw [hout] at h
      dsimp only at h ⊢
      injection h with h1
      subst h1
      rfl

theorem getHistory_le (st : QueryEngineState) (n : ℕ) (hn : 1 ≤ n) :
    (getHistory st n).length ≤ n := by
  unfold getHistory jsSliceLastN
  have : ¬ n = 0 := by omega
  simp [this]
  omega

theorem getHistory_most_recent_first (st : QueryEngineState) (n i : ℕ)
    (hi : i < (getHistory st n).length) :
    (getHistory st n).get? i =
      st.queryHistory.get? (st.queryHistory.length - 1 - i) := by
  have key : ∀ m : ℕ, i < ((st.queryHistory.drop m).reverse).length →
      ((st.queryHistory.drop m).reverse).get? i =
        st.queryHistory.get? (st.queryHistory.length - 1 - i) := by
    intro m hi2
    simp only [List.length_reverse, List.length_drop] at hi2
    rw [List.get?_reverse (by simp only [List.length_drop]; omega)]
    rw [List.get?_drop]
    congr 1
    simp only [List.length_drop]
    omega
  unfold getHistory jsSliceLastN at hi ⊢
  by_cases hn : n = 0
  · rw [if_pos hn] at hi ⊢
    have h0 := key 0
    rw [List.drop_zero] at h0
    exact h0 (by simpa using hi)
  · rw [if_neg hn] at hi ⊢
    exact key _ hi

/-- C8 counterexample: after one failed `execute` on a fresh engine the
history holds one record, and `getHistory 0` returns it — JS
`slice(-0) = slice(0)` copies the whole history — so `getHistory n`
does *not* return at most `n` records at `n = 0`. -/
theorem spec_C8_counterexample :
    (getHistory exFailState 0).length = 1 ∧
    ¬ (getHistory exFailState 0).length ≤ 0 :=
  ⟨by decide, by decide⟩

/-- C8 (corrected): every `execute`, success or failure, appends exactly
one history record; a failing `execute` appends the record carrying its
error message and re-raises the failure; `getHistory n` returns at most
`n` records for every `n ≥ 1` (at `n = 0` it returns the *whole* history,
because `slice(-0)` is `slice(0)`), most recent first (the `i`-th returned
record is the `i`-th-from-the-end stored record, for every `n`); and after
`clearHistory` every `getHistory` call returns the empty list. -/
theorem spec_C8_history_integrity :
    (∀ (st : QueryEngineState) (sql : String),
      ((execute st sql).2).queryHistory.length = st.queryHistory.length + 1) ∧
    (∀ (st : QueryEngineState) (sql e : String),
      (execute st sql).1 = .error e →
      ((execute st sql).2).queryHistory =
        st.queryHistory ++
          [{ sql := sql, rowsAffected := none, success := false
             error := some e, executionPlan := none }]) ∧
    (∀ (st : QueryEngineState) (n : ℕ), 1 ≤ n → (getHistory st n).length ≤ n) ∧
    (∀ (st : QueryEngineState) (n i : ℕ), i < (getHistory st n).length →
      (getHistory st n).get? i =
        st.queryHistory.get? (st.queryHistory.length - 1 - i)) ∧
    (∀ (st : QueryEngineState) (n : ℕ), getHistory (clearHistory st) n = []) := by
  refine ⟨execute_appends_one_record, execute_failure_appends_error_record,
    getHistory_le, getHistory_most_recent_first, ?_⟩
  intro st n
  unfold getHistory clearHistory jsSliceLastN
  by_cases hn : n = 0 <;> simp [hn]

/-- Witness for C8: the conjuncts instantiated on a fresh engine and the
failing statement `DELETE FROM t`. -/
theorem spec_C8_history_integrity_witness :
    ((execute ⟨exEmpty, []⟩ "DELETE FROM t").2).queryHistory.length = 0 + 1 ∧
    ((execute ⟨exEmpty, []⟩ "DELETE FROM t").2).queryHistory =
      [] ++ [{ sql := "DELETE FROM t", rowsAffected := none, success := false
               error := some "Only SELECT queries are supported"
               executionPlan := none }] ∧
    (getHistory exFailState 1).length ≤ 1 ∧
    getHistory (clearHistory exFailState) 10 = [] :=
  ⟨execute_appends_one_record ⟨exEmpty, []⟩ "DELETE FROM t",
   spec_C8_history_integrity.2.1 ⟨exEmpty, []⟩ "DELETE FROM t"
     "Only SELECT queries are supported" (by decide),
   spec_C8_history_integrity.2.2.1 exFailState 1 (by decide),
   spec_C8_history_integrity.2.2.2.2 exFailState 10⟩

end CStore
